import Mathlib

/-!
# Verification of the E2B repository specification

Shallow embedding of the repository's components and proofs of the
claims made about them:

* the `validateAndNormalizePath` utility (`apps/web/src/utils/securePath.ts`),
  together with a model of Node's POSIX `path.resolve`;
* the chat API route handler (`apps/web/src/app/api/chat/route.ts`);
* the multi-dump splitter and its gains computation (the `tools/agentx5`
  parser; its Python source is not part of the source tree, only its
  README and documentation are, so those parts are modelled from the
  specification text, as marked in the doc comments).

All definitions are executable (structural recursion only) so that
concrete runs can be settled by `decide` or `rfl`.
-/

set_option maxRecDepth 10000

namespace E2B

/-! ## Character and string helpers -/

/-- Space-like characters (space, tab, carriage return). -/
def isSpaceCh (c : Char) : Bool :=
  c == ' ' || c == '\t' || c == '\r'

/-- ASCII lower-casing of one character. -/
def lowerChar (c : Char) : Char :=
  if 65 ≤ c.toNat ∧ c.toNat ≤ 90 then Char.ofNat (c.toNat + 32) else c

/-- ASCII lower-casing of a string. -/
def strLower (s : String) : String :=
  ⟨s.data.map lowerChar⟩

/-- A line is blank when every character is space-like. -/
def isBlank (s : String) : Bool :=
  s.data.all isSpaceCh

/-- Split a character list at every occurrence of `sep` (the separator is
dropped; empty pieces are kept, as with `String.split` in most languages). -/
def splitOnCh (sep : Char) : List Char → List (List Char)
  | [] => [[]]
  | c :: cs =>
    if c = sep then [] :: splitOnCh sep cs
    else
      match splitOnCh sep cs with
      | [] => [[c]]
      | p :: ps => (c :: p) :: ps

/-- Drop leading space-like characters. -/
def dropSp : List Char → List Char
  | [] => []
  | c :: cs => if isSpaceCh c then dropSp cs else c :: cs

/-- Trim space-like characters from both ends. -/
def trimBoth (l : List Char) : List Char :=
  (dropSp ((dropSp l).reverse)).reverse

/-- Boolean list-prefix test. -/
def isPrefList : List Char → List Char → Bool
  | [], _ => true
  | _ :: _, [] => false
  | a :: as, b :: bs => a == b && isPrefList as bs

/-- Boolean contiguous-substring test (`p` occurs somewhere inside `s`). -/
def containsL (p : List Char) : List Char → Bool
  | [] => p.isEmpty
  | c :: cs => isPrefList p (c :: cs) || containsL p cs

/-- String-level test that `p` occurs inside `s`. -/
def strContains (s p : String) : Bool := containsL p.data s.data

/-- String-level test that `p` is a leading piece of `s`. -/
def leadsWith (p s : String) : Bool := isPrefList p.data s.data

/-- Join string pieces with a comma separator. -/
def joinComma : List String → String
  | [] => ""
  | [x] => x
  | x :: xs => x ++ "," ++ joinComma xs

/-- Join lines with a newline separator. -/
def joinLines : List String → String
  | [] => ""
  | [x] => x
  | x :: xs => x ++ "\n" ++ joinLines xs

/-- Digit test. -/
def isDigitCh (c : Char) : Bool := 48 ≤ c.toNat && c.toNat ≤ 57

/-- Decimal digit character of a value below ten. -/
def digitCh (n : Nat) : Char := Char.ofNat (48 + n)

/-- Digits of a natural number, most significant first (fuelled structural
recursion; the fuel `n + 1` always suffices). -/
def natDigits (fuel n : Nat) : List Char :=
  match fuel with
  | 0 => []
  | f + 1 => if n < 10 then [digitCh n] else natDigits f (n / 10) ++ [digitCh (n % 10)]

/-- Decimal rendering of a natural number. -/
def natToStr (n : Nat) : String := ⟨natDigits (n + 1) n⟩

/-- Decimal rendering of an integer. -/
def intToStr (i : Int) : String :=
  if i < 0 then "-" ++ natToStr i.natAbs else natToStr i.natAbs

/-- Numeric value of a non-empty all-digit character list. -/
def digitsValAux : List Char → Nat → Option Nat
  | [], acc => some acc
  | c :: cs, acc =>
    if isDigitCh c then digitsValAux cs (acc * 10 + (c.toNat - 48)) else none

/-- Numeric value of a non-empty all-digit character list. -/
def digitsVal : List Char → Option Nat
  | [] => none
  | l => digitsValAux l 0

/-! ## POSIX path resolution (model of Node's `path.resolve`)

`apps/web/src/utils/securePath.ts` resolves paths with Node's
`path.resolve` before comparing them.  `pathResolve cwd ps` models
`path.resolve(...ps)` run in working directory `cwd`: arguments are
scanned right to left until an absolute one is found (falling back to the
working directory), the pieces are concatenated and normalised (`.` and
empty segments dropped, `..` popping one segment, with segments above the
root dropped for absolute paths and kept for relative ones). -/

/-- Does the path start with the separator? -/
def startsSlash (s : String) : Bool :=
  match s.data with
  | [] => false
  | c :: _ => c == '/'

/-- Scanning right to left (input is the reversed argument list), keep
arguments up to and including the first absolute one; the flag reports
whether an absolute argument was found. -/
def gatherAbs : List String → List String × Bool
  | [] => ([], false)
  | p :: rest =>
    if startsSlash p then ([p], true)
    else
      let (l, b) := gatherAbs rest
      (p :: l, b)

/-- One step of path normalisation: `acc` is the reversed stack of kept
segments, `part` the next raw segment. -/
def normStep (allowAbove : Bool) (acc : List (List Char)) (part : List Char) :
    List (List Char) :=
  if part = [] ∨ part = ['.'] then acc
  else if part = ['.', '.'] then
    match acc with
    | [] => if allowAbove then [['.', '.']] else []
    | top :: rest => if top = ['.', '.'] then part :: acc else rest
  else part :: acc

/-- Join segments with the separator. -/
def joinSlash : List (List Char) → List Char
  | [] => []
  | [p] => p
  | p :: ps => p ++ '/' :: joinSlash ps

/-- Model of Node's POSIX `path.resolve(...paths)` with working directory
`cwd`. -/
def pathResolve (cwd : String) (paths : List String) : String :=
  let (takenRev, isAbs) := gatherAbs (cwd :: paths).reverse
  let parts := (takenRev.reverse.map (fun s => splitOnCh '/' s.data)).flatten
  let stack := parts.foldl (normStep (!isAbs)) []
  let body := joinSlash stack.reverse
  if isAbs then ⟨'/' :: body⟩
  else if body = [] then "." else ⟨body⟩

/-- Embedding of `validateAndNormalizePath` from
`apps/web/src/utils/securePath.ts` (and its `.mjs` twin): resolve the base
and the user path, accept the resolution when it equals the resolved base
or extends it past a separator, and otherwise fail with the path-traversal
error message. -/
def validateAndNormalizePath (cwd basePath userPath : String) :
    Except String String :=
  let resolvedBase := pathResolve cwd [basePath]
  let resolvedPath := pathResolve cwd [basePath, userPath]
  if resolvedPath ≠ resolvedBase ∧ leadsWith (resolvedBase ++ "/") resolvedPath = false then
    .error ("Path traversal detected: " ++ userPath ++ " is outside the allowed directory")
  else
    .ok resolvedPath

/-! ## JSON values

JSON trees, encoded with explicit spine constructors (`arrCons`/`objCons`)
so that every operation is plain structural recursion.  `arrNil`/`arrCons`
spines are arrays, `objNil`/`objCons` spines are objects. -/

inductive Json where
  | null : Json
  | bool : Bool → Json
  | num : Int → Json
  | str : String → Json
  | arrNil : Json
  | arrCons : Json → Json → Json
  | objNil : Json
  | objCons : String → Json → Json → Json
deriving DecidableEq

/-- Is the value an array (`Array.isArray`)? -/
def Json.isArr : Json → Bool
  | .arrNil => true
  | .arrCons _ _ => true
  | _ => false

/-- Property lookup on an object value; with duplicate keys the last
occurrence wins, as with JavaScript's `JSON.parse`.  Non-objects have no
properties. -/
def Json.getField : Json → String → Option Json
  | .objCons k v t, key =>
    match Json.getField t key with
    | some r => some r
    | none => if k == key then some v else none
  | _, _ => none

/-- Last element of an array value. -/
def Json.lastElem : Json → Option Json
  | .arrCons h t =>
    match Json.lastElem t with
    | some x => some x
    | none => some h
  | _ => none

/-- JavaScript falsiness of a JSON value (`undefined` is represented as an
absent `Option`, outside this function). -/
def jsFalsy : Json → Bool
  | .null => true
  | .bool b => !b
  | .num n => n == 0
  | .str s => s == ""
  | _ => false

/-- JavaScript string interpolation of a JSON value (`${v}`): arrays join
their stringified elements with commas following `Array.prototype.join`,
under which a `null` (or undefined) element renders as the empty string
(`String([null]) === ""`), while a top-level `null` renders as "null";
plain objects print as `[object Object]`. -/
def jsToStr : Json → String
  | .null => "null"
  | .bool true => "true"
  | .bool false => "false"
  | .num n => intToStr n
  | .str s => s
  | .arrNil => ""
  | .arrCons h t =>
    let hs :=
      match h with
      | .null => ""
      | _ => jsToStr h
    match t with
    | .arrCons _ _ => hs ++ "," ++ jsToStr t
    | .arrNil => hs
    | _ => hs ++ "," ++ jsToStr t
  | .objNil => "[object Object]"
  | .objCons _ _ _ => "[object Object]"

/-! ### JSON parsing (fuelled recursive descent)

Used by the splitter to re-serialise structured sections; a genuine but
minimal grammar: `null`, `true`, `false`, integers, strings without escape
sequences, arrays and objects, with space-like and newline whitespace. -/

/-- Opening and closing brace characters. -/
def lbrace : Char := Char.ofNat 123

/-- Opening and closing brace characters. -/
def rbrace : Char := Char.ofNat 125

/-- Skip JSON whitespace. -/
def skipWs : List Char → List Char
  | [] => []
  | c :: cs => if isSpaceCh c || c == '\n' then skipWs cs else c :: cs

/-- Read characters up to a closing quote (no escape handling). -/
def readStr : List Char → Option (String × List Char)
  | [] => none
  | c :: cs =>
    if c = '"' then some ("", cs)
    else
      match readStr cs with
      | some (s, rest) => some (⟨c :: s.data⟩, rest)
      | none => none

/-- Read a run of digits. -/
def readDigits : List Char → List Char × List Char
  | [] => ([], [])
  | c :: cs =>
    if isDigitCh c then
      let (ds, rest) := readDigits cs
      (c :: ds, rest)
    else ([], c :: cs)

mutual

/-- Parse one JSON value. -/
def pVal (fuel : Nat) (s : List Char) : Option (Json × List Char) :=
  match fuel with
  | 0 => none
  | f + 1 =>
    match skipWs s with
    | [] => none
    | c :: cs =>
      if c = 'n' then
        match cs with
        | 'u' :: 'l' :: 'l' :: rest => some (.null, rest)
        | _ => none
      else if c = 't' then
        match cs with
        | 'r' :: 'u' :: 'e' :: rest => some (.bool true, rest)
        | _ => none
      else if c = 'f' then
        match cs with
        | 'a' :: 'l' :: 's' :: 'e' :: rest => some (.bool false, rest)
        | _ => none
      else if c = '"' then
        match readStr cs with
        | some (str, rest) => some (.str str, rest)
        | none => none
      else if c = '-' then
        match readDigits cs with
        | ([], _) => none
        | (ds, rest) =>
          match digitsVal ds with
          | some n => some (.num (-(n : Int)), rest)
          | none => none
      else if isDigitCh c then
        match readDigits (c :: cs) with
        | ([], _) => none
        | (ds, rest) =>
          match digitsVal ds with
          | some n => some (.num (n : Int), rest)
          | none => none
      else if c = '[' then
        match skipWs cs with
        | ']' :: rest => some (.arrNil, rest)
        | other => pArrItems f other
      else if c = lbrace then
        match skipWs cs with
        | d :: rest =>
          if d = rbrace then some (.objNil, rest) else pObjItems f (d :: rest)
        | [] => none
      else none

/-- Parse the comma-separated items of a non-empty array, including the
closing bracket. -/
def pArrItems (fuel : Nat) (s : List Char) : Option (Json × List Char) :=
  match fuel with
  | 0 => none
  | f + 1 =>
    match pVal f s with
    | none => none
    | some (v, rest) =>
      match skipWs rest with
      | ',' :: more =>
        match pArrItems f more with
        | some (tail, rest') => some (.arrCons v tail, rest')
        | none => none
      | ']' :: rest' => some (.arrCons v .arrNil, rest')
      | _ => none

/-- Parse the comma-separated members of a non-empty object, including the
closing brace. -/
def pObjItems (fuel : Nat) (s : List Char) : Option (Json × List Char) :=
  match fuel with
  | 0 => none
  | f + 1 =>
    match skipWs s with
    | '"' :: cs =>
      match readStr cs with
      | none => none
      | some (key, rest) =>
        match skipWs rest with
        | ':' :: rest' =>
          match pVal f rest' with
          | none => none
          | some (v, rest'') =>
            match skipWs rest'' with
            | ',' :: more =>
              match pObjItems f more with
              | some (tail, rest3) => some (.objCons key v tail, rest3)
              | none => none
            | d :: rest3 =>
              if d = rbrace then some (.objCons key v .objNil, rest3) else none
            | [] => none
        | _ => none
    | _ => none

end

/-- Parse a whole text as one JSON value (nothing but whitespace may
follow). -/
def jsonParse (s : String) : Option Json :=
  match pVal (s.data.length + 1) s.data with
  | some (v, rest) => if skipWs rest = [] then some v else none
  | none => none

/-! ### JSON pretty-printing

Re-serialisation with two-space indentation, producing the output lines of
a structured section. -/

/-- Indent every line by two spaces. -/
def indent2 (lines : List String) : List String :=
  lines.map (fun l => "  " ++ l)

/-- Append a string to the last line of a block. -/
def appendToLast : List String → String → List String
  | [], s => [s]
  | [l], s => [l ++ s]
  | l :: ls, s => l :: appendToLast ls s

/-- Quote a string value (escape sequences are not modelled). -/
def quoteStr (s : String) : String := "\"" ++ s ++ "\""

/-- Fuse an object key onto the first line of its value's block. -/
def fuseKey (k : String) (lines : List String) : List String :=
  match lines with
  | [] => [quoteStr k ++ ":"]
  | l :: ls => (quoteStr k ++ ": " ++ l) :: ls

/-- Pretty-printed lines of a JSON value, two-space indentation, one array
element or object member per line. -/
def serLines : Json → List String
  | .null => ["null"]
  | .bool true => ["true"]
  | .bool false => ["false"]
  | .num n => [intToStr n]
  | .str s => [quoteStr s]
  | .arrNil => ["[]"]
  | .arrCons h t =>
    match t with
    | .arrCons _ _ => "[" :: indent2 (appendToLast (serLines h) ",") ++ List.tail (serLines t)
    | _ => "[" :: indent2 (serLines h) ++ ["]"]
  | .objNil => ["\x7b\x7d"]
  | .objCons k v t =>
    match t with
    | .objCons _ _ _ =>
      "\x7b" :: indent2 (appendToLast (fuseKey k (serLines v)) ",") ++ List.tail (serLines t)
    | _ => "\x7b" :: indent2 (fuseKey k (serLines v)) ++ ["\x7d"]

/-! ## Chat API route handler

Embedding of `POST` from `apps/web/src/app/api/chat/route.ts`.  The
handler receives the parsed JSON body (`await request.json()`); the model
therefore takes a `Json` value.  Destructuring `{ messages }` from a
`null` body throws in JavaScript and is caught by the route's `catch`
block, which responds with status 500. -/

/-- An HTTP response of the route: status code and JSON body. -/
structure ChatResponse where
  status : Nat
  body : Json
deriving DecidableEq

/-- The mock reply template of the route, around the embedded last-message
content. -/
def chatMessage (content : String) : String :=
  "Hello! I\x27m AgentX5 Assistant. I received your message. To enable full AI functionality, please add your ANTHROPIC_API_KEY to the environment variables.\n\nYour message: \"" ++
    content ++
    "\"\n\nI have access to 219 specialized agents for:\n- Code execution and analysis\n- Legal document processing\n- Financial data analysis\n- Multi-format data parsing\n- And much more!"

/-- `messages[messages.length - 1]?.content || ''`: the stringified content
of the last element, or the empty string when the array is empty, the last
element has no `content` property, or the content is falsy. -/
def lastContentStr (messages : Json) : String :=
  match messages.lastElem with
  | none => ""
  | some el =>
    match el.getField "content" with
    | none => ""
    | some c => if jsFalsy c then "" else jsToStr c

/-- The 400 response body of the route. -/
def invalidMessagesBody : Json :=
  .objCons "error" (.str "Invalid messages format") .objNil

/-- The 200 response body of the route. -/
def chatOkBody (messages : Json) : Json :=
  .objCons "message" (.str (chatMessage (lastContentStr messages)))
    (.objCons "usage"
      (.objCons "input_tokens" (.num 0) (.objCons "output_tokens" (.num 0) .objNil))
      .objNil)

/-- Embedding of the chat route's `POST` handler, applied to the parsed
JSON request body. -/
def chatPOST (requestBody : Json) : ChatResponse :=
  if requestBody = .null then
    { status := 500
      body := .objCons "error" (.str "Failed to process chat request")
        (.objCons "details"
          (.str "Cannot destructure property \x27messages\x27 of null") .objNil) }
  else
    match requestBody.getField "messages" with
    | some messages =>
      if messages.isArr then { status := 200, body := chatOkBody messages }
      else { status := 400, body := invalidMessagesBody }
    | none => { status := 400, body := invalidMessagesBody }

/-! ## The dump splitter

Modelled from the spec: the Python source `multi_dump_parser.py` of the
`tools/agentx5` dump splitter is not part of the source tree (only its
README and documentation are), so the splitter is modelled from the
specification (sections 3, 4.1, 6, 7) and the kind names and header
columns documented in the tool's README. -/

/-- Modelled from the spec: the static header-pattern registry
(`HEADER_PATTERNS`), a fixed priority-ordered list mapping each
section-kind name to a lower-cased recognizer matched case-insensitively
as a substring of the line.  Kind names and header columns follow the
README of `tools/agentx5`. -/
def headerPatterns : List (String × String) :=
  [("robinhood_sales", "asset name,received date,cost basis,date sold,proceeds"),
   ("personal_finance", "date,original date,account type"),
   ("crypto_movements", "transaction,type,input currency"),
   ("btc_daily_prices", "start,end,open,high,low,close,volume,market cap"),
   ("logic_app_json", "logic app"),
   ("scriptable_js", "scriptable")]

/-- Modelled from the spec: the structured (JSON-rendered) section kinds
(`JSON_SECTIONS` in the README); every other kind is tabular. -/
def isJsonKind (k : String) : Bool :=
  k == "logic_app_json" || k == "scriptable_js"

/-- First registered pattern matching the line, case-insensitively
(first-registered match wins). -/
def firstMatch : List (String × String) → String → Option String
  | [], _ => none
  | (k, p) :: rest, line =>
    if containsL p.data (strLower line).data then some k else firstMatch rest line

/-- The section kind whose header pattern the line matches, if any. -/
def findHeader (line : String) : Option String :=
  firstMatch headerPatterns line

/-- Splitter state: the most recently opened section kind and the section
buffers, in order of first appearance. -/
structure SplitState where
  current : Option String
  sections : List (String × List String)
deriving DecidableEq

/-- The initial splitter state. -/
def initState : SplitState := ⟨none, []⟩

/-- Does a buffer for this kind exist already? -/
def hasSection (st : SplitState) (k : String) : Bool :=
  st.sections.any (fun kb => kb.1 == k)

/-- Append a line to the buffer of kind `k`. -/
def appendTo (st : SplitState) (k : String) (line : String) : SplitState :=
  { st with
    sections := st.sections.map (fun kb => if kb.1 = k then (kb.1, kb.2 ++ [line]) else kb) }

/-- Modelled from the spec: open (or reopen) the section for kind `k`.  A
repeated occurrence of the same kind's header continues the same buffer;
on first open, a tabular kind keeps the header line as its column-name
line once, a structured kind does not. -/
def openSection (st : SplitState) (k : String) (line : String) : SplitState :=
  if hasSection st k then { st with current := some k }
  else
    { current := some k
      sections := st.sections ++ [(k, if isJsonKind k then [] else [line])] }

/-- Modelled from the spec: process one input line.  A recognized header
opens its section; blank lines are skipped without closing the current
section; other lines are appended verbatim to the open section's buffer,
or discarded when no header has been seen yet. -/
def stepLine (st : SplitState) (line : String) : SplitState :=
  match findHeader line with
  | some k => openSection st k line
  | none =>
    if isBlank line then st
    else
      match st.current with
      | some k => appendTo st k line
      | none => st

/-- Run the single-pass splitter over the input lines. -/
def runSplitter (lines : List String) : SplitState :=
  lines.foldl stepLine initState

/-- The kind each input line is assigned to: a header line to its own
kind, a blank line to nothing, any other line to the most recently opened
section (or nothing before any header). -/
def assignAux (cur : Option String) : List String → List (Option String)
  | [] => []
  | l :: ls =>
    match findHeader l with
    | some k => some k :: assignAux (some k) ls
    | none =>
      if isBlank l then none :: assignAux cur ls
      else cur :: assignAux cur ls

/-- Section assignment of a whole dump. -/
def assignKinds (lines : List String) : List (Option String) :=
  assignAux none lines

/-! ### Output rendering -/

/-- Normalise one tabular row: trim whitespace around every
comma-separated field. -/
def cleanRow (row : String) : String :=
  joinComma ((splitOnCh ',' row.data).map (fun f => ⟨trimBoth f⟩))

/-- One output file: its name and its lines. -/
structure OutFile where
  name : String
  rows : List String
deriving DecidableEq

/-- Modelled from the spec: render one section.  Tabular kinds become
`<kind>.csv` with whitespace-normalised rows; structured kinds become
`<kind>.json` with the buffered text parsed and re-serialised with
indentation, or written out as raw text when it fails to parse. -/
def renderFile (k : String) (buf : List String) : OutFile :=
  if isJsonKind k then
    match jsonParse (joinLines buf) with
    | some v => ⟨k ++ ".json", serLines v⟩
    | none => ⟨k ++ ".json", buf⟩
  else ⟨k ++ ".csv", buf.map cleanRow⟩

/-- Render every section that accumulated at least one row. -/
def renderOutputs (secs : List (String × List String)) : List OutFile :=
  secs.filterMap (fun kb => if kb.2.isEmpty then none else some (renderFile kb.1 kb.2))

/-- First buffer stored under a kind. -/
def lookupSec : List (String × List String) → String → Option (List String)
  | [], _ => none
  | (k, buf) :: rest, key => if k == key then some buf else lookupSec rest key

/-! ### Gains computation

Modelled from the spec (section 4.2): parse the sales rows, derive
gain, holding period and term per row, skip unparsable rows. -/

/-- Day number of a calendar date (days since the civil epoch of the
standard days-from-civil algorithm, restricted to non-negative years). -/
def dayNumber (y m d : Nat) : Nat :=
  let y' := if m ≤ 2 then y - 1 else y
  let m' := if m ≤ 2 then m + 9 else m - 3
  365 * y' + y' / 4 - y' / 100 + y' / 400 + (153 * m' + 2) / 5 + (d - 1)

/-- Modelled from the spec: parse a date of the accepted format list
(`YYYY-MM-DD`) into its day number. -/
def parseDate (s : List Char) : Option Nat :=
  match (splitOnCh '-' s).map digitsVal with
  | [some y, some m, some d] =>
    if 1 ≤ m ∧ m ≤ 12 ∧ 1 ≤ d ∧ d ≤ 31 then some (dayNumber y m d) else none
  | _ => none

/-- Modelled from the spec: parse a decimal currency amount into cents,
stripping currency symbols and thousands separators first. -/
def parseMoney (s : List Char) : Option Int :=
  let stripped := s.filter (fun c => !(c == '$' || c == ' '))
  let core := stripped.filter (fun c => !(c == ','))
  match splitOnCh '.' core with
  | [i] => (digitsVal i).map (fun n => (n : Int) * 100)
  | [i, f] =>
    match digitsVal i, f with
    | some n, [a] => (digitsVal [a]).map (fun fr => (n : Int) * 100 + fr * 10)
    | some n, [a, b] => (digitsVal [a, b]).map (fun fr => (n : Int) * 100 + fr)
    | some n, [] => some ((n : Int) * 100)
    | _, _ => none
  | _ => none

/-- One derived record of the gains summary. -/
structure GainRecord where
  asset : String
  received : Nat
  sold : Nat
  costBasis : Int
  proceeds : Int
  gain : Int
  daysHeld : Int
  term : String
deriving DecidableEq

/-- Modelled from the spec: the derived fields of one valid sales row:
`gain = proceeds - cost_basis`, `days_held = sold_date - received_date`
in days, `term` is long-term exactly above 365 days. -/
def mkGainRecord (asset : String) (received sold : Nat) (costBasis proceeds : Int) :
    GainRecord :=
  { asset := asset
    received := received
    sold := sold
    costBasis := costBasis
    proceeds := proceeds
    gain := proceeds - costBasis
    daysHeld := (sold : Int) - (received : Int)
    term := if (sold : Int) - (received : Int) > 365 then "long-term" else "short-term" }

/-- Modelled from the spec: parse one sales row
(`asset, received-date, cost-basis, sold-date, proceeds`); rows with an
unparsable date or amount, a wrong field count, or a negative holding
period are rejected. -/
def parseRow (row : String) : Option GainRecord :=
  match (splitOnCh ',' row.data).map trimBoth with
  | [a, rc, cb, sd, pr] =>
    match parseDate rc, parseDate sd, parseMoney cb, parseMoney pr with
    | some received, some sold, some costBasis, some proceeds =>
      if (sold : Int) - (received : Int) < 0 then none
      else some (mkGainRecord ⟨a⟩ received sold costBasis proceeds)
    | _, _, _, _ => none
  | _ => none

/-- The gains summary: valid records in row order, the skipped-row tally,
and the total gain over valid rows. -/
structure GainsSummary where
  records : List GainRecord
  skipped : Nat
  totalGain : Int
deriving DecidableEq

/-- Modelled from the spec: per-row gains computation with graceful
per-row failure — an unparsable row is excluded and counted, the rest
proceed. -/
def computeGains : List String → GainsSummary
  | [] => ⟨[], 0, 0⟩
  | r :: rs =>
    let s := computeGains rs
    match parseRow r with
    | some g => ⟨g :: s.records, s.skipped, g.gain + s.totalGain⟩
    | none => ⟨s.records, s.skipped + 1, s.totalGain⟩

/-- Render money in cents as a decimal string. -/
def moneyStr (cents : Int) : String :=
  let sign := if cents < 0 then "-" else ""
  let a := cents.natAbs
  sign ++ natToStr (a / 100) ++ "." ++ (if a % 100 < 10 then "0" else "") ++ natToStr (a % 100)

/-- One CSV row of the gains summary. -/
def recordRow (r : GainRecord) : String :=
  joinComma [r.asset, natToStr r.received, moneyStr r.costBasis, natToStr r.sold,
             moneyStr r.proceeds, moneyStr r.gain, intToStr r.daysHeld, r.term]

/-- The gains-summary CSV: a column header, one row per valid record, and
a total-gain summary line. -/
def gainsCsv (g : GainsSummary) : List String :=
  "asset,received,cost_basis,sold,proceeds,gain,days_held,term"
    :: g.records.map recordRow
    ++ [joinComma ["total_gain", moneyStr g.totalGain, "rows_skipped", natToStr g.skipped]]

/-- Modelled from the spec: when the sales section was populated, compute
the gains over its data rows (the rows after the kept column-header line)
and emit the separate summary file named in the tool's README. -/
def gainsFileOf (secs : List (String × List String)) : List OutFile :=
  match lookupSec secs "robinhood_sales" with
  | some (_hdr :: dataRows) =>
    [⟨"robinhood_gains_summary.csv", gainsCsv (computeGains dataRows)⟩]
  | _ => []

/-! ### The whole run -/

/-- Named failure kinds of a run (spec section 7). -/
inductive RunError where
  | InputNotFound : RunError
  | OutputWriteError : RunError
deriving DecidableEq

/-- Result of a successful run: the files written. -/
structure RunResult where
  files : List OutFile
deriving DecidableEq

/-- Modelled from the spec: the splitter entry point.  The input is
`none` when the input file is missing (`InputNotFound`);
`outputWritable = false` models an unwritable output directory
(`OutputWriteError`).  Otherwise the run always succeeds, writing one
output file per populated section plus the conditional gains summary. -/
def splitDump (input : Option (List String)) (outputWritable : Bool) :
    Except RunError RunResult :=
  match input with
  | none => .error .InputNotFound
  | some lines =>
    if outputWritable then
      let st := runSplitter lines
      .ok ⟨renderOutputs st.sections ++ gainsFileOf st.sections⟩
    else .error .OutputWriteError

/-! ## Shared lemmas -/

instance {ε α : Type} [DecidableEq ε] [DecidableEq α] : DecidableEq (Except ε α) :=
  fun a b =>
    match a, b with
    | .ok x, .ok y =>
      decidable_of_iff (x = y) ⟨fun h => h ▸ rfl, fun h => by cases h; rfl⟩
    | .error x, .error y =>
      decidable_of_iff (x = y) ⟨fun h => h ▸ rfl, fun h => by cases h; rfl⟩
    | .ok _, .error _ => .isFalse (fun h => by cases h)
    | .error _, .ok _ => .isFalse (fun h => by cases h)

theorem strData_append (a b : String) : (a ++ b).data = a.data ++ b.data := rfl

theorem isPrefList_self_append (p rest : List Char) : isPrefList p (p ++ rest) = true := by
  induction p with
  | nil => rfl
  | cons c cs ih => simp [isPrefList, ih]

theorem containsL_of_pref {p s : List Char} (h : isPrefList p s = true) :
    containsL p s = true := by
  cases s with
  | nil =>
    cases p with
    | nil => rfl
    | cons c cs => simp [isPrefList] at h
  | cons c cs => simp [containsL, h]

theorem normStep_nil (b : Bool) (acc : List (List Char)) : normStep b acc [] = acc := by
  simp [normStep]

theorem gatherAbs_cons_notAbs (p : String) (rest : List String) (h : startsSlash p = false) :
    gatherAbs (p :: rest) = (p :: (gatherAbs rest).1, (gatherAbs rest).2) := by
  rw [gatherAbs, h]
  simp

/-- `path.resolve` ignores an empty trailing argument, so resolving the
empty user path yields the resolved base itself. -/
theorem pathResolve_empty_user (cwd base : String) :
    pathResolve cwd [base, ""] = pathResolve cwd [base] := by
  unfold pathResolve
  have h1 : (cwd :: [base, ""]).reverse = "" :: (cwd :: [base]).reverse := by simp
  rw [h1]
  rcases hg : gatherAbs ((cwd :: [base]).reverse) with ⟨l, b⟩
  have h2 : gatherAbs ("" :: (cwd :: [base]).reverse) = ("" :: l, b) := by
    rw [gatherAbs_cons_notAbs "" _ (by rfl), hg]
  rw [h2]
  simp only [List.reverse_cons, List.map_append, List.flatten_append]
  have h3 : splitOnCh '/' ("" : String).data = [[]] := rfl
  simp only [List.map_cons, List.map_nil, h3, List.flatten_cons, List.flatten_nil,
    List.append_nil, List.foldl_append, List.foldl_cons, List.foldl_nil, normStep_nil]

theorem contains_traversal_msg (user : String) :
    containsL ("Path traversal detected").data
      ("Path traversal detected: " ++ user ++ " is outside the allowed directory").data = true := by
  apply containsL_of_pref
  rw [strData_append, strData_append]
  have h : ("Path traversal detected: " : String).data
      = ("Path traversal detected" : String).data ++ [':', ' '] := by decide
  rw [h, List.append_assoc, List.append_assoc]
  exact isPrefList_self_append _ _

/-! ## Claim C9 -/

/-- C9: `validateAndNormalizePath` returns the absolute resolution of
`userPath` against `basePath` exactly when that resolution equals the
resolved base or starts with the resolved base followed by the separator,
and otherwise throws an error whose message contains
"Path traversal detected"; consequently every returned value lies within
the base directory, `..` segments resolving inside the base are accepted
(concrete instance below), and the empty user path returns the resolved
base itself. -/
theorem claim_C9_path_validation :
    (∀ cwd base user p, validateAndNormalizePath cwd base user = .ok p →
      p = pathResolve cwd [base, user] ∧
        (p = pathResolve cwd [base] ∨
          leadsWith (pathResolve cwd [base] ++ "/") p = true)) ∧
    (∀ cwd base user,
      (pathResolve cwd [base, user] = pathResolve cwd [base] ∨
        leadsWith (pathResolve cwd [base] ++ "/") (pathResolve cwd [base, user]) = true) →
      validateAndNormalizePath cwd base user = .ok (pathResolve cwd [base, user])) ∧
    (∀ cwd base user msg, validateAndNormalizePath cwd base user = .error msg →
      ¬ (pathResolve cwd [base, user] = pathResolve cwd [base] ∨
          leadsWith (pathResolve cwd [base] ++ "/") (pathResolve cwd [base, user]) = true) ∧
        containsL ("Path traversal detected").data msg.data = true) ∧
    (∀ cwd base, validateAndNormalizePath cwd base "" = .ok (pathResolve cwd [base])) ∧
    validateAndNormalizePath "/" "/home/user/project" "src/../file.ts"
      = .ok "/home/user/project/file.ts" := by
  refine ⟨?_, ?_, ?_, ?_, by decide⟩
  · intro cwd base user p h
    simp only [validateAndNormalizePath] at h
    split at h
    · cases h
    · rename_i hc
      cases h
      refine ⟨rfl, ?_⟩
      by_cases he : pathResolve cwd [base, user] = pathResolve cwd [base]
      · exact Or.inl he
      · right
        by_contra hl
        exact hc ⟨he, Bool.not_eq_true _ ▸ hl⟩
  · intro cwd base user h
    simp only [validateAndNormalizePath]
    split
    · rename_i hc
      rcases h with h | h
      · exact absurd h hc.1
      · rw [h] at hc; cases hc.2
    · rfl
  · intro cwd base user msg h
    simp only [validateAndNormalizePath] at h
    split at h
    · rename_i hc
      cases h
      refine ⟨?_, contains_traversal_msg user⟩
      rintro (h | h)
      · exact hc.1 h
      · rw [h] at hc; cases hc.2
    · cases h
  · intro cwd base
    have he := pathResolve_empty_user cwd base
    simp only [validateAndNormalizePath]
    split
    · rename_i hc
      exact absurd he hc.1
    · rw [he]

/-- Witness for C9: the theorem applied at concrete inputs — a traversal
outside the base is rejected with the traversal message, a path inside
the base is returned resolved, and the empty user path returns the
resolved base. -/
theorem claim_C9_witness :
    (¬ (pathResolve "/" ["/home/user/project", "../x"] = pathResolve "/" ["/home/user/project"] ∨
        leadsWith (pathResolve "/" ["/home/user/project"] ++ "/")
          (pathResolve "/" ["/home/user/project", "../x"]) = true) ∧
      containsL ("Path traversal detected").data
        ("Path traversal detected: ../x is outside the allowed directory").data = true) ∧
    validateAndNormalizePath "/" "/home/user/project" "src/file.ts"
      = .ok (pathResolve "/" ["/home/user/project", "src/file.ts"]) ∧
    validateAndNormalizePath "/" "/home/user/project" ""
      = .ok (pathResolve "/" ["/home/user/project"]) :=
  ⟨claim_C9_path_validation.2.2.1 "/" "/home/user/project" "../x" _ (by decide),
   claim_C9_path_validation.2.1 "/" "/home/user/project" "src/file.ts" (by decide),
   claim_C9_path_validation.2.2.2.1 "/" "/home/user/project"⟩



/-- C10 counterexample: the claim as stated fails on the code in two
places.  A JSON-null request body makes the JavaScript destructuring
throw, so the handler answers 500, not 400; and a last element whose
`content` is the falsy value `0` is embedded as the empty string, not as
its content "0". -/
theorem claim_C10_counterexample :
    (chatPOST .null).status = 500 ∧ (chatPOST .null).status ≠ 400 ∧
    chatPOST (.objCons "messages"
        (.arrCons (.objCons "content" (.num 0) .objNil) .arrNil) .objNil)
      = ⟨200, chatOkBody (.arrCons (.objCons "content" (.num 0) .objNil) .arrNil)⟩ ∧
    (Json.arrCons (.objCons "content" (.num 0) .objNil) .arrNil).lastElem
      = some (.objCons "content" (.num 0) .objNil) ∧
    (Json.objCons "content" (.num 0) .objNil).getField "content" = some (.num 0) ∧
    lastContentStr (.arrCons (.objCons "content" (.num 0) .objNil) .arrNil) = "" ∧
    jsToStr (.num 0) = "0" ∧ ("" : String) ≠ "0" := by
  refine ⟨rfl, by decide, by decide, rfl, rfl, rfl, rfl, by decide⟩

/-- C10 (amended): for a parsed JSON body, a JSON-null body yields
status 500; otherwise, when `messages` is absent or not an array the
handler answers 400 with the invalid-format body, and when `messages` is
an array it answers 200 with a message string embedding the stringified
content of the last element — the empty string when the array is empty,
the last element has no content, or its content is falsy. -/
theorem claim_C10_chat_route :
    (chatPOST .null).status = 500 ∧
    (∀ body, body ≠ .null →
      (∀ m, body.getField "messages" = some m → m.isArr = false) →
      chatPOST body = ⟨400, .objCons "error" (.str "Invalid messages format") .objNil⟩) ∧
    (∀ body m, body ≠ .null → body.getField "messages" = some m → m.isArr = true →
      chatPOST body = ⟨200, chatOkBody m⟩ ∧
        (chatOkBody m).getField "message" = some (.str (chatMessage (lastContentStr m)))) ∧
    (∀ m, m.lastElem = none → lastContentStr m = "") ∧
    (∀ m el, m.lastElem = some el → el.getField "content" = none → lastContentStr m = "") ∧
    (∀ m el c, m.lastElem = some el → el.getField "content" = some c → jsFalsy c = true →
      lastContentStr m = "") ∧
    (∀ m el c, m.lastElem = some el → el.getField "content" = some c → jsFalsy c = false →
      lastContentStr m = jsToStr c) := by
  refine ⟨rfl, ?_, ?_, ?_, ?_, ?_, ?_⟩
  · intro body hne hno
    simp only [chatPOST, if_neg hne]
    cases hg : body.getField "messages" with
    | none => rfl
    | some m => simp [hno m hg, invalidMessagesBody]
  · intro body m hne hg harr
    refine ⟨?_, ?_⟩
    · simp [chatPOST, if_neg hne, hg, harr]
    · simp [chatOkBody, Json.getField]
  · intro m h; simp [lastContentStr, h]
  · intro m el h hc; simp [lastContentStr, h, hc]
  · intro m el c h hc hf; simp [lastContentStr, h, hc, hf]
  · intro m el c h hc hf; simp [lastContentStr, h, hc, hf]

/-- Witness for C10: the amended theorem applied at concrete request
bodies. -/
theorem claim_C10_witness :
    chatPOST (.objCons "messages" (.num 3) .objNil)
      = ⟨400, .objCons "error" (.str "Invalid messages format") .objNil⟩ ∧
    (chatPOST (.objCons "messages"
        (.arrCons (.objCons "content" (.str "hi") .objNil) .arrNil) .objNil)
      = ⟨200, chatOkBody (.arrCons (.objCons "content" (.str "hi") .objNil) .arrNil)⟩ ∧
      (chatOkBody (.arrCons (.objCons "content" (.str "hi") .objNil) .arrNil)).getField "message"
        = some (.str (chatMessage
            (lastContentStr (.arrCons (.objCons "content" (.str "hi") .objNil) .arrNil))))) ∧
    lastContentStr (.arrCons (.objCons "content" (.str "hi") .objNil) .arrNil)
      = jsToStr (.str "hi") :=
  ⟨claim_C10_chat_route.2.1 _ (by decide)
      (fun m hm => by
        have h : m = Json.num 3 := by
          have h0 : (Json.objCons "messages" (Json.num 3) Json.objNil).getField "messages"
              = some (Json.num 3) := rfl
          rw [h0] at hm
          exact (Option.some_inj.mp hm).symm
        rw [h]; rfl),
   claim_C10_chat_route.2.2.1 _ _ (by decide) rfl rfl,
   claim_C10_chat_route.2.2.2.2.2.2 _ _ _ rfl rfl (by decide)⟩



theorem mkGainRecord_props (a : String) (rc sd : Nat) (cb pr : Int) :
    (mkGainRecord a rc sd cb pr).gain
        = (mkGainRecord a rc sd cb pr).proceeds - (mkGainRecord a rc sd cb pr).costBasis ∧
      (mkGainRecord a rc sd cb pr).daysHeld
        = ((mkGainRecord a rc sd cb pr).sold : Int) - ((mkGainRecord a rc sd cb pr).received : Int) ∧
      ((mkGainRecord a rc sd cb pr).term = "long-term" ↔ (mkGainRecord a rc sd cb pr).daysHeld > 365) ∧
      ((mkGainRecord a rc sd cb pr).term = "short-term" ↔ ¬ (mkGainRecord a rc sd cb pr).daysHeld > 365) := by
  refine ⟨rfl, rfl, ?_, ?_⟩ <;>
    · simp only [mkGainRecord]
      by_cases h : (sd : Int) - (rc : Int) > 365 <;> simp [h]

theorem parseRow_shape {row : String} {r : GainRecord} (h : parseRow row = some r) :
    ∃ a rc sd cb pr, r = mkGainRecord a rc sd cb pr := by
  unfold parseRow at h
  split at h
  · rename_i a rc cb sd pr
    split at h
    · split at h
      · cases h
      · rename_i received sold costBasis proceeds _ _
        exact ⟨_, _, _, _, _, (Option.some_inj.mp h).symm⟩
    · cases h
  · cases h


/-- C1 (amended): for every parsed sales row the gains computation
returns `gain = proceeds - cost_basis`, `days_held = sold - received` in
days, and `term` is "long-term" exactly when `days_held > 365`, otherwise
"short-term"; the row received 2023-01-01, sold 2023-06-01, cost 100.00,
proceeds 150.00 yields gain 50.00, days_held 151, "short-term", and the
row received 2022-01-01, sold 2023-06-01 yields days_held 516 (not the
517 the claim states), "long-term". -/
theorem claim_C1_gains_formula :
    (∀ row r, parseRow row = some r →
      r.gain = r.proceeds - r.costBasis ∧
      r.daysHeld = (r.sold : Int) - (r.received : Int) ∧
      (r.term = "long-term" ↔ r.daysHeld > 365) ∧
      (r.term = "short-term" ↔ ¬ r.daysHeld > 365)) ∧
    parseRow "AAPL,2023-01-01,100.00,2023-06-01,150.00"
      = some ⟨"AAPL", 738826, 738977, 10000, 15000, 5000, 151, "short-term"⟩ ∧
    moneyStr 5000 = "50.00" ∧ moneyStr 10000 = "100.00" ∧ moneyStr 15000 = "150.00" ∧
    parseRow "AAPL,2022-01-01,100.00,2023-06-01,150.00"
      = some ⟨"AAPL", 738461, 738977, 10000, 15000, 5000, 516, "long-term"⟩ := by
  refine ⟨?_, by decide, by decide, by decide, by decide, by decide⟩
  intro row r h
  obtain ⟨a, rc, sd, cb, pr, rfl⟩ := parseRow_shape h
  exact mkGainRecord_props a rc sd cb pr

/-- C1 counterexample: under the spec's own formula
`days_held = sold_date - received_date` the row received 2022-01-01, sold
2023-06-01 yields 516 days, not the 517 the claim asserts (the 151-day
example fixes the convention to exclusive day differences, and 2022 has
365 days). -/
theorem claim_C1_counterexample :
    (parseRow "AAPL,2022-01-01,100.00,2023-06-01,150.00").map GainRecord.daysHeld = some 516 ∧
    (parseRow "AAPL,2023-01-01,100.00,2023-06-01,150.00").map GainRecord.daysHeld = some 151 ∧
    ((516 : Int) = 517 → False) := by
  exact ⟨by decide, by decide, by decide⟩

/-- Witness for C1: the general formula applied to the concrete parsed
first example row. -/
theorem claim_C1_witness :
    (⟨"AAPL", 738826, 738977, 10000, 15000, 5000, 151, "short-term"⟩ : GainRecord).gain
        = (⟨"AAPL", 738826, 738977, 10000, 15000, 5000, 151, "short-term"⟩ : GainRecord).proceeds
          - (⟨"AAPL", 738826, 738977, 10000, 15000, 5000, 151, "short-term"⟩ : GainRecord).costBasis ∧
    (⟨"AAPL", 738826, 738977, 10000, 15000, 5000, 151, "short-term"⟩ : GainRecord).daysHeld
        = ((738977 : Nat) : Int) - ((738826 : Nat) : Int) ∧
    ((⟨"AAPL", 738826, 738977, 10000, 15000, 5000, 151, "short-term"⟩ : GainRecord).term = "long-term"
      ↔ (⟨"AAPL", 738826, 738977, 10000, 15000, 5000, 151, "short-term"⟩ : GainRecord).daysHeld > 365) ∧
    ((⟨"AAPL", 738826, 738977, 10000, 15000, 5000, 151, "short-term"⟩ : GainRecord).term = "short-term"
      ↔ ¬ (⟨"AAPL", 738826, 738977, 10000, 15000, 5000, 151, "short-term"⟩ : GainRecord).daysHeld > 365) :=
  claim_C1_gains_formula.1 "AAPL,2023-01-01,100.00,2023-06-01,150.00" _ (by decide)


/-- C5: a sales row that fails to parse is excluded from the gains
summary and increments the skipped-row count by exactly 1, leaving every
other row's records and the total gain unchanged; the computation is
total, so the remaining rows are still processed. -/
theorem claim_C5_skipped_rows :
    ∀ pre bad post, parseRow bad = none →
      (computeGains (pre ++ bad :: post)).records = (computeGains (pre ++ post)).records ∧
      (computeGains (pre ++ bad :: post)).skipped = (computeGains (pre ++ post)).skipped + 1 ∧
      (computeGains (pre ++ bad :: post)).totalGain = (computeGains (pre ++ post)).totalGain := by
  intro pre bad post hbad
  induction pre with
  | nil => simp [computeGains, hbad]
  | cons r rs ih =>
    simp only [List.cons_append, computeGains]
    cases hp : parseRow r <;> simp [hp, ih.1, ih.2.1, ih.2.2]

/-- Witness for C5: a concrete unparsable row between two valid rows. -/
theorem claim_C5_witness :
    (computeGains ["AAPL,2023-01-01,100.00,2023-06-01,150.00",
        "AAPL,notadate,100.00,2023-06-01,150.00",
        "MSFT,2022-01-01,10.00,2023-06-01,30.00"]).records
      = (computeGains ["AAPL,2023-01-01,100.00,2023-06-01,150.00",
          "MSFT,2022-01-01,10.00,2023-06-01,30.00"]).records ∧
    (computeGains ["AAPL,2023-01-01,100.00,2023-06-01,150.00",
        "AAPL,notadate,100.00,2023-06-01,150.00",
        "MSFT,2022-01-01,10.00,2023-06-01,30.00"]).skipped
      = (computeGains ["AAPL,2023-01-01,100.00,2023-06-01,150.00",
          "MSFT,2022-01-01,10.00,2023-06-01,30.00"]).skipped + 1 ∧
    (computeGains ["AAPL,2023-01-01,100.00,2023-06-01,150.00",
        "AAPL,notadate,100.00,2023-06-01,150.00",
        "MSFT,2022-01-01,10.00,2023-06-01,30.00"]).totalGain
      = (computeGains ["AAPL,2023-01-01,100.00,2023-06-01,150.00",
          "MSFT,2022-01-01,10.00,2023-06-01,30.00"]).totalGain :=
  claim_C5_skipped_rows ["AAPL,2023-01-01,100.00,2023-06-01,150.00"]
    "AAPL,notadate,100.00,2023-06-01,150.00"
    ["MSFT,2022-01-01,10.00,2023-06-01,30.00"] (by decide)


theorem stepLine_initState_no_header {l : String} (h : findHeader l = none) :
    stepLine initState l = initState := by
  simp only [stepLine, h]
  split <;> rfl

/-- C3: an input in which no line matches any registered header pattern
makes the run succeed with zero output files. -/
theorem claim_C3_no_headers :
    ∀ lines, (∀ l ∈ lines, findHeader l = none) → splitDump (some lines) true = .ok ⟨[]⟩ := by
  intro lines h
  have hrun : runSplitter lines = initState := by
    unfold runSplitter
    induction lines with
    | nil => rfl
    | cons l ls ih =>
      rw [List.foldl_cons, stepLine_initState_no_header (h l (by simp))]
      exact ih (fun x hx => h x (by simp [hx]))
  simp [splitDump, hrun, initState, renderOutputs, gainsFileOf, lookupSec]

/-- Witness for C3: a concrete dump with no recognized headers. -/
theorem claim_C3_witness :
    splitDump (some ["hello world", "1,2,3", ""]) true = .ok ⟨[]⟩ :=
  claim_C3_no_headers ["hello world", "1,2,3", ""] (by decide)

/-- C6: a missing input file fails the run with `InputNotFound`, an
unwritable output directory fails it with `OutputWriteError`, and a run
with readable input and writable output always succeeds (row- and
section-level issues never abort it). -/
theorem claim_C6_failure_semantics :
    (∀ w, splitDump none w = .error .InputNotFound) ∧
    (∀ lines, splitDump (some lines) false = .error .OutputWriteError) ∧
    (∀ lines, ∃ res, splitDump (some lines) true = .ok res) :=
  ⟨fun _ => rfl, fun _ => rfl, fun _ => ⟨_, rfl⟩⟩


theorem appendTo_single (k : String) (buf : List String) (l : String) :
    appendTo ⟨some k, [(k, buf)]⟩ k l = ⟨some k, [(k, buf ++ [l])]⟩ := by
  simp [appendTo]

theorem foldl_append_rows (k : String) (rows buf : List String)
    (h : ∀ r ∈ rows, findHeader r = none ∧ isBlank r = false) :
    List.foldl stepLine ⟨some k, [(k, buf)]⟩ rows = ⟨some k, [(k, buf ++ rows)]⟩ := by
  induction rows generalizing buf with
  | nil => simp
  | cons r rs ih =>
    have hr := h r (by simp)
    rw [List.foldl_cons]
    have hstep : stepLine ⟨some k, [(k, buf)]⟩ r = ⟨some k, [(k, buf ++ [r])]⟩ := by
      simp [stepLine, hr.1, hr.2, appendTo_single]
    rw [hstep, ih (buf ++ [r]) (fun x hx => h x (by simp [hx]))]
    simp

theorem hasSection_false_not_mem {st : SplitState} {k : String}
    (h : hasSection st k = false) : k ∉ st.sections.map Prod.fst := by
  intro hmem
  obtain ⟨kb, hkb, hfst⟩ := List.mem_map.mp hmem
  have : st.sections.any (fun kb => kb.1 == k) = true :=
    List.any_eq_true.mpr ⟨kb, hkb, by simp [hfst]⟩
  rw [hasSection] at h
  rw [this] at h
  cases h

theorem map_fst_appendTo (st : SplitState) (k l : String) :
    (appendTo st k l).sections.map Prod.fst = st.sections.map Prod.fst := by
  simp only [appendTo, List.map_map]
  apply List.map_congr_left
  intro kb _
  by_cases hkb : kb.1 = k <;> simp [hkb]

theorem stepLine_kinds_nodup (st : SplitState) (l : String)
    (h : (st.sections.map Prod.fst).Nodup) :
    ((stepLine st l).sections.map Prod.fst).Nodup := by
  cases hf : findHeader l with
  | some k =>
    simp only [stepLine, hf, openSection]
    by_cases hs : hasSection st k
    · simp [hs, h]
    · have hnm := hasSection_false_not_mem (Bool.not_eq_true _ ▸ hs)
      simp only [hs]
      simp [List.nodup_append, h, hnm]
  | none =>
    simp only [stepLine, hf]
    split
    · exact h
    · cases st.current with
      | some k => simpa [map_fst_appendTo] using h
      | none => exact h

theorem firstMatch_congr_lower (pats : List (String × String)) {l1 l2 : String}
    (h : strLower l1 = strLower l2) : firstMatch pats l1 = firstMatch pats l2 := by
  induction pats with
  | nil => rfl
  | cons kp rest ih =>
    obtain ⟨k, p⟩ := kp
    simp only [firstMatch, h, ih]

/-- C4: header matching is case-insensitive — two lines with the same
lower-casing match the same header pattern, and when they are header
lines they open the same section kind, leave the same section-kind
structure, and give every subsequent line the identical section
assignment. -/
theorem claim_C4_case_insensitive :
    ∀ l1 l2 : String, strLower l1 = strLower l2 →
      findHeader l1 = findHeader l2 ∧
      (∀ k, findHeader l1 = some k →
        (∀ st, (stepLine st l1).current = some k ∧ (stepLine st l2).current = some k ∧
          (stepLine st l1).sections.map Prod.fst = (stepLine st l2).sections.map Prod.fst) ∧
        (∀ cur post, assignAux cur (l1 :: post) = assignAux cur (l2 :: post)) ∧
        (∀ post, assignKinds (l1 :: post) = assignKinds (l2 :: post))) := by
  intro l1 l2 h
  have hf : findHeader l1 = findHeader l2 := firstMatch_congr_lower headerPatterns h
  refine ⟨hf, ?_⟩
  intro k hk1
  have hk2 : findHeader l2 = some k := hf ▸ hk1
  refine ⟨?_, ?_, ?_⟩
  · intro st
    simp only [stepLine, hk1, hk2, openSection]
    by_cases hs : hasSection st k <;> simp [hs]
  · intro cur post
    simp [assignAux, hk1, hk2]
  · intro post
    simp [assignKinds, assignAux, hk1, hk2]

/-- Witness for C4: the all-caps and mixed-case sales headers. -/
theorem claim_C4_witness :
    findHeader "ASSET NAME,RECEIVED DATE,COST BASIS,DATE SOLD,PROCEEDS"
        = findHeader "Asset Name,Received Date,Cost Basis,Date Sold,Proceeds" ∧
    (stepLine initState "ASSET NAME,RECEIVED DATE,COST BASIS,DATE SOLD,PROCEEDS").current
        = some "robinhood_sales" ∧
    (stepLine initState "Asset Name,Received Date,Cost Basis,Date Sold,Proceeds").current
        = some "robinhood_sales" ∧
    assignKinds ("ASSET NAME,RECEIVED DATE,COST BASIS,DATE SOLD,PROCEEDS" :: ["x,y", "z"])
        = assignKinds ("Asset Name,Received Date,Cost Basis,Date Sold,Proceeds" :: ["x,y", "z"]) := by
  have h := claim_C4_case_insensitive
    "ASSET NAME,RECEIVED DATE,COST BASIS,DATE SOLD,PROCEEDS"
    "Asset Name,Received Date,Cost Basis,Date Sold,Proceeds" (by decide)
  have h2 := h.2 "robinhood_sales" (by decide)
  exact ⟨h.1, (h2.1 initState).1, (h2.1 initState).2.1, h2.2.2 ["x,y", "z"]⟩


theorem isEmpty_false_of_ne_nil {α : Type} {l : List α} (h : l ≠ []) : l.isEmpty = false := by
  cases l with
  | nil => exact absurd rfl h
  | cons a as => rfl

theorem renderFile_mem_outputs {secs : List (String × List String)} {k : String}
    {buf : List String} (hmem : (k, buf) ∈ secs) (hne : buf ≠ []) :
    renderFile k buf ∈ renderOutputs secs := by
  apply List.mem_filterMap.mpr
  exact ⟨(k, buf), hmem, by simp [isEmpty_false_of_ne_nil hne]⟩

/-- C7: a structured (JSON-kind) section whose buffered text fails to
parse is written out as raw text under its `.json` name instead of
failing; every other populated section is still rendered, and the run as
a whole still succeeds. -/
theorem claim_C7_raw_fallback :
    ∀ secs k buf, (k, buf) ∈ secs → isJsonKind k = true → buf ≠ [] →
      jsonParse (joinLines buf) = none →
      (⟨k ++ ".json", buf⟩ : OutFile) ∈ renderOutputs secs ∧
      (∀ k2 b2, (k2, b2) ∈ secs → b2 ≠ [] → renderFile k2 b2 ∈ renderOutputs secs) ∧
      (∀ lines, ∃ res, splitDump (some lines) true = .ok res) := by
  intro secs k buf hmem hjson hne hp
  refine ⟨?_, fun k2 b2 hm2 hne2 => renderFile_mem_outputs hm2 hne2, fun lines => ⟨_, rfl⟩⟩
  have he : renderFile k buf = ⟨k ++ ".json", buf⟩ := by
    simp [renderFile, hjson, hp]
  exact he ▸ renderFile_mem_outputs hmem hne

/-- Witness for C7: a malformed structured section next to a tabular
one. -/
theorem claim_C7_witness :
    (⟨"logic_app_json" ++ ".json", ["\x7bbad"]⟩ : OutFile)
        ∈ renderOutputs [("logic_app_json", ["\x7bbad"]), ("robinhood_sales", ["a,b"])] ∧
    renderFile "robinhood_sales" ["a,b"]
        ∈ renderOutputs [("logic_app_json", ["\x7bbad"]), ("robinhood_sales", ["a,b"])] := by
  have h := claim_C7_raw_fallback
    [("logic_app_json", ["\x7bbad"]), ("robinhood_sales", ["a,b"])]
    "logic_app_json" ["\x7bbad"] (by simp) (by decide) (by simp) (by decide)
  exact ⟨h.1, h.2.1 "robinhood_sales" ["a,b"] (by simp) (by simp)⟩


theorem spaceCh_cases {c : Char} (h : isSpaceCh c = true) :
    c = ' ' ∨ c = '\t' ∨ c = '\r' := by
  simp only [isSpaceCh, Bool.or_eq_true, beq_iff_eq] at h
  tauto

theorem lowerChar_space {c : Char} (h : isSpaceCh c = true) : lowerChar c = c := by
  rcases spaceCh_cases h with rfl | rfl | rfl <;> decide

theorem map_lowerChar_of_all_space {l : List Char} (h : ∀ c ∈ l, isSpaceCh c = true) :
    l.map lowerChar = l := by
  induction l with
  | nil => rfl
  | cons c cs ih =>
    rw [List.map_cons, lowerChar_space (h c (by simp)), ih (fun x hx => h x (by simp [hx]))]

theorem strLower_blank {l : String} (h : isBlank l = true) : strLower l = l := by
  have hall := List.all_eq_true.mp h
  unfold strLower
  rw [map_lowerChar_of_all_space hall]


theorem mem_of_isPrefList {p s : List Char} (h : isPrefList p s = true) :
    ∀ c ∈ p, c ∈ s := by
  induction p generalizing s with
  | nil => intro c hc; cases hc
  | cons a as ih =>
    cases s with
    | nil => cases h
    | cons b bs =>
      simp only [isPrefList, Bool.and_eq_true, beq_iff_eq] at h
      intro c hc
      rcases List.mem_cons.mp hc with rfl | hc
      · simp [h.1]
      · simp [ih h.2 c hc]

theorem mem_of_containsL {p s : List Char} (h : containsL p s = true) :
    ∀ c ∈ p, c ∈ s := by
  induction s with
  | nil =>
    intro c hc
    simp only [containsL, List.isEmpty_eq_true] at h
    subst h
    cases hc
  | cons b bs ih =>
    simp only [containsL, Bool.or_eq_true] at h
    rcases h with h | h
    · exact mem_of_isPrefList h
    · intro c hc
      exact List.mem_cons.mpr (Or.inr (ih h c hc))

theorem containsL_false_of_space {p s : List Char} (hp : 'a' ∈ p)
    (hs : ∀ c ∈ s, isSpaceCh c = true) : containsL p s = false := by
  by_contra h
  have := mem_of_containsL (Bool.not_eq_false _ ▸ h) 'a' hp
  have := hs 'a' this
  cases this

theorem findHeader_blank {l : String} (h : isBlank l = true) : findHeader l = none := by
  have hl : strLower l = l := strLower_blank h
  have hall := List.all_eq_true.mp h
  simp only [findHeader, headerPatterns, firstMatch, hl]
  rw [containsL_false_of_space (by decide) hall, containsL_false_of_space (by decide) hall,
    containsL_false_of_space (by decide) hall, containsL_false_of_space (by decide) hall,
    containsL_false_of_space (by decide) hall, containsL_false_of_space (by decide) hall]
  simp

theorem stepLine_blank (st : SplitState) (l : String) (h : isBlank l = true) :
    stepLine st l = st := by
  simp [stepLine, findHeader_blank h, h]

theorem findHeader_some_nonblank {l : String} {k : String} (h : findHeader l = some k) :
    isBlank l = false := by
  by_contra hb
  rw [findHeader_blank (Bool.not_eq_false _ ▸ hb)] at h
  cases h


/-- All section buffers contain only non-blank lines. -/
def buffersNonblank (st : SplitState) : Prop :=
  ∀ k buf, (k, buf) ∈ st.sections → ∀ l ∈ buf, isBlank l = false

theorem buffersNonblank_step {st : SplitState} (l : String) (h : buffersNonblank st) :
    buffersNonblank (stepLine st l) := by
  cases hf : findHeader l with
  | some k =>
    simp only [stepLine, hf, openSection]
    by_cases hs : hasSection st k
    · rw [if_pos hs]
      exact h
    · rw [if_neg hs]
      intro k' buf' hmem l' hl'
      simp only [List.mem_append, List.mem_singleton] at hmem
      rcases hmem with hmem | hmem
      · exact h k' buf' hmem l' hl'
      · have hbuf : buf' = if isJsonKind k then [] else [l] := congrArg Prod.snd hmem
        rw [hbuf] at hl'
        split at hl'
        · cases hl'
        · rcases List.mem_singleton.mp hl' with rfl
          exact findHeader_some_nonblank hf
  | none =>
    simp only [stepLine, hf]
    split
    · exact h
    · rename_i hblank
      have hlnb : isBlank l = false := Bool.not_eq_true _ ▸ hblank
      cases hc : st.current with
      | none => exact h
      | some k =>
        simp only [appendTo]
        intro k' buf' hmem l' hl'
        obtain ⟨⟨k0, buf0⟩, hmem0, hupd⟩ := List.mem_map.mp hmem
        by_cases hk0 : k0 = k
        · rw [if_pos hk0] at hupd
          have h2 : buf0 ++ [l] = buf' := congrArg Prod.snd hupd
          rw [← h2] at hl'
          rcases List.mem_append.mp hl' with hl0 | hl0
          · exact h k0 buf0 hmem0 l' hl0
          · rcases List.mem_singleton.mp hl0 with rfl
            exact hlnb
        · rw [if_neg hk0] at hupd
          have h2 : buf0 = buf' := congrArg Prod.snd hupd
          rw [← h2] at hl'
          exact h k0 buf0 hmem0 l' hl' 


theorem runSplitter_buffersNonblank (lines : List String) :
    buffersNonblank (runSplitter lines) := by
  unfold runSplitter
  have h0 : buffersNonblank initState := by
    intro k buf hmem
    cases hmem
  generalize initState = st at h0 ⊢
  induction lines generalizing st with
  | nil => exact h0
  | cons l ls ih => exact ih _ (buffersNonblank_step l h0)

theorem isBlank_append (a b : String) : isBlank (a ++ b) = (isBlank a && isBlank b) := by
  simp [isBlank, strData_append, List.all_append]

theorem isBlank_comma_append (a b : String) : isBlank (a ++ "," ++ b) = false := by
  rw [isBlank_append, isBlank_append]
  simp [isBlank]
  intro h
  exact fun h2 => absurd h2 (by decide)

theorem joinComma_two_nonblank (a b : String) (rest : List String) :
    isBlank (joinComma (a :: b :: rest)) = false := by
  show isBlank (a ++ "," ++ joinComma (b :: rest)) = false
  exact isBlank_comma_append a (joinComma (b :: rest))


theorem splitOnCh_ne_nil (sep : Char) (l : List Char) : splitOnCh sep l ≠ [] := by
  cases l with
  | nil => simp [splitOnCh]
  | cons c cs =>
    simp only [splitOnCh]
    split
    · simp
    · split
      · simp
      · simp

theorem splitOnCh_no_sep {sep : Char} {l : List Char} (h : ∀ c ∈ l, c ≠ sep) :
    splitOnCh sep l = [l] := by
  induction l with
  | nil => rfl
  | cons c cs ih =>
    have hc : c ≠ sep := h c (by simp)
    simp only [splitOnCh, if_neg hc]
    rw [ih (fun x hx => h x (by simp [hx]))]

theorem splitOnCh_len_two {sep : Char} {l : List Char} (h : sep ∈ l) :
    2 ≤ (splitOnCh sep l).length := by
  induction l with
  | nil => cases h
  | cons c cs ih =>
    by_cases hc : c = sep
    · simp only [splitOnCh, if_pos hc, List.length_cons]
      have := splitOnCh_ne_nil sep cs
      have : 1 ≤ (splitOnCh sep cs).length := by
        cases he : splitOnCh sep cs with
        | nil => exact absurd he this
        | cons p ps => simp
      omega
    · have hmem : sep ∈ cs := by
        rcases List.mem_cons.mp h with rfl | hm
        · exact absurd rfl hc
        · exact hm
      have h2 := ih hmem
      simp only [splitOnCh, if_neg hc]
      cases he : splitOnCh sep cs with
      | nil => exact absurd he (splitOnCh_ne_nil sep cs)
      | cons p ps =>
        rw [he] at h2
        simpa using h2

theorem mem_dropSp {c : Char} {l : List Char} (hc : c ∈ l) (hns : isSpaceCh c = false) :
    c ∈ dropSp l := by
  induction l with
  | nil => cases hc
  | cons d ds ih =>
    simp only [dropSp]
    split
    · rename_i hd
      rcases List.mem_cons.mp hc with rfl | hm
      · rw [hd] at hns; cases hns
      · exact ih hm
    · exact hc

theorem mem_trimBoth {c : Char} {l : List Char} (hc : c ∈ l) (hns : isSpaceCh c = false) :
    c ∈ trimBoth l := by
  unfold trimBoth
  rw [List.mem_reverse]
  apply mem_dropSp _ hns
  rw [List.mem_reverse]
  exact mem_dropSp hc hns

theorem nonblank_of_mem {s : String} {c : Char} (hc : c ∈ s.data)
    (hns : isSpaceCh c = false) : isBlank s = false := by
  by_contra h
  have hall := List.all_eq_true.mp (Bool.not_eq_false _ ▸ h)
  rw [hall c hc] at hns
  cases hns

theorem blank_false_witness {s : String} (h : isBlank s = false) :
    ∃ c ∈ s.data, isSpaceCh c = false := by
  by_contra hne
  push_neg at hne
  have : isBlank s = true := List.all_eq_true.mpr (fun c hc => by
    have := hne c hc
    cases hv : isSpaceCh c with
    | false => exact absurd hv this
    | true => rfl)
  rw [this] at h
  cases h

theorem cleanRow_nonblank {row : String} (h : isBlank row = false) :
    isBlank (cleanRow row) = false := by
  unfold cleanRow
  by_cases hc : ',' ∈ row.data
  · have hlen := splitOnCh_len_two hc
    cases he : splitOnCh ',' row.data with
    | nil => exact absurd he (splitOnCh_ne_nil ',' row.data)
    | cons p ps =>
      cases ps with
      | nil => rw [he] at hlen; simp at hlen
      | cons q qs =>
        simp only [List.map_cons]
        exact joinComma_two_nonblank _ _ _
  · have hns : ∀ x ∈ row.data, x ≠ ',' := fun x hx he => hc (he ▸ hx)
    rw [splitOnCh_no_sep hns]
    obtain ⟨c, hcm, hcs⟩ := blank_false_witness h
    simp only [List.map_cons, List.map_nil]
    show isBlank ⟨trimBoth row.data⟩ = false
    exact nonblank_of_mem (by simpa using mem_trimBoth hcm hcs) hcs


theorem nonblank_left_append {a : String} (b : String) (h : isBlank a = false) :
    isBlank (a ++ b) = false := by
  rw [isBlank_append, h]
  simp

theorem indent2_nonblank {lines : List String} (h : ∀ x ∈ lines, isBlank x = false) :
    ∀ x ∈ indent2 lines, isBlank x = false := by
  intro x hx
  obtain ⟨y, hy, rfl⟩ := List.mem_map.mp hx
  rw [isBlank_append, h y hy]
  simp

theorem appendToLast_comma_nonblank {block : List String}
    (h : ∀ x ∈ block, isBlank x = false) :
    ∀ x ∈ appendToLast block ",", isBlank x = false := by
  induction block with
  | nil =>
    intro x hx
    rcases List.mem_singleton.mp hx with rfl
    decide
  | cons l ls ih =>
    cases ls with
    | nil =>
      intro x hx
      rcases List.mem_singleton.mp hx with rfl
      exact nonblank_left_append "," (h l (by simp))
    | cons m ms =>
      intro x hx
      rcases List.mem_cons.mp hx with rfl | hx
      · exact h x (by simp)
      · exact ih (fun y hy => h y (by simp [List.mem_cons.mp hy])) x hx

theorem quoteStr_nonblank (k : String) : isBlank (quoteStr k) = false := by
  unfold quoteStr
  exact nonblank_left_append _ (nonblank_left_append _ (by decide))

theorem fuseKey_nonblank {k : String} {block : List String}
    (h : ∀ x ∈ block, isBlank x = false) :
    ∀ x ∈ fuseKey k block, isBlank x = false := by
  cases block with
  | nil =>
    intro x hx
    rcases List.mem_singleton.mp hx with rfl
    exact nonblank_left_append _ (quoteStr_nonblank k)
  | cons l ls =>
    intro x hx
    rcases List.mem_cons.mp hx with rfl | hx
    · show isBlank (quoteStr k ++ ": " ++ l) = false
      exact nonblank_left_append _ (nonblank_left_append _ (quoteStr_nonblank k))
    · exact h x (by simp [hx])

theorem digitCh_nonspace {n : Nat} (h : n < 10) : isSpaceCh (digitCh n) = false := by
  interval_cases n <;> decide

theorem natToStr_nonblank (n : Nat) : isBlank (natToStr n) = false := by
  unfold natToStr natDigits
  by_cases h : n < 10
  · rw [if_pos h]
    exact nonblank_of_mem (List.mem_singleton.mpr rfl) (digitCh_nonspace h)
  · rw [if_neg h]
    exact nonblank_of_mem
      (List.mem_append.mpr (Or.inr (List.mem_singleton.mpr rfl)))
      (digitCh_nonspace (Nat.mod_lt _ (by omega)))

theorem intToStr_nonblank (i : Int) : isBlank (intToStr i) = false := by
  unfold intToStr
  split
  · exact nonblank_left_append _ (by decide)
  · exact natToStr_nonblank _

theorem serLines_nonblank (v : Json) : ∀ x ∈ serLines v, isBlank x = false := by
  induction v with
  | null => intro x hx; rcases List.mem_singleton.mp hx with rfl; decide
  | bool b =>
    cases b <;> (intro x hx; rcases List.mem_singleton.mp hx with rfl; decide)
  | num n =>
    intro x hx
    rcases List.mem_singleton.mp hx with rfl
    exact intToStr_nonblank n
  | str s =>
    intro x hx
    rcases List.mem_singleton.mp hx with rfl
    exact quoteStr_nonblank s
  | arrNil => intro x hx; rcases List.mem_singleton.mp hx with rfl; decide
  | objNil => intro x hx; rcases List.mem_singleton.mp hx with rfl; decide
  | arrCons hd tl ihh iht =>
    intro x hx
    cases tl <;>
      [skip; skip; skip; skip; skip;
       (rcases List.mem_cons.mp hx with rfl | hx
        · decide
        · rcases List.mem_append.mp hx with hx | hx
          · exact indent2_nonblank (appendToLast_comma_nonblank ihh) x hx
          · exact iht x (List.mem_of_mem_tail hx));
       skip; skip] <;>
      (rcases List.mem_cons.mp hx with rfl | hx
       · decide
       · rcases List.mem_append.mp hx with hx | hx
         · exact indent2_nonblank ihh x hx
         · rcases List.mem_singleton.mp hx with rfl
           decide)
  | objCons k v tl ihv iht =>
    intro x hx
    cases tl <;>
      [skip; skip; skip; skip; skip; skip; skip;
       (rcases List.mem_cons.mp hx with rfl | hx
        · decide
        · rcases List.mem_append.mp hx with hx | hx
          · exact indent2_nonblank (appendToLast_comma_nonblank (fuseKey_nonblank ihv)) x hx
          · exact iht x (List.mem_of_mem_tail hx))] <;>
      (rcases List.mem_cons.mp hx with rfl | hx
       · decide
       · rcases List.mem_append.mp hx with hx | hx
         · exact indent2_nonblank (fuseKey_nonblank ihv) x hx
         · rcases List.mem_singleton.mp hx with rfl
           decide)


theorem recordRow_nonblank (r : GainRecord) : isBlank (recordRow r) = false := by
  unfold recordRow
  exact joinComma_two_nonblank _ _ _

theorem gainsCsv_nonblank (g : GainsSummary) : ∀ x ∈ gainsCsv g, isBlank x = false := by
  intro x hx
  unfold gainsCsv at hx
  rcases List.mem_cons.mp hx with rfl | hx
  · decide
  · rcases List.mem_append.mp hx with hx | hx
    · obtain ⟨r, _, rfl⟩ := List.mem_map.mp hx
      exact recordRow_nonblank r
    · rcases List.mem_singleton.mp hx with rfl
      exact joinComma_two_nonblank _ _ _

theorem renderFile_rows_nonblank {k : String} {buf : List String}
    (h : ∀ l ∈ buf, isBlank l = false) :
    ∀ row ∈ (renderFile k buf).rows, isBlank row = false := by
  unfold renderFile
  split
  · split
    · rename_i v _
      exact serLines_nonblank v
    · exact h
  · intro row hrow
    obtain ⟨l, hl, rfl⟩ := List.mem_map.mp hrow
    exact cleanRow_nonblank (h l hl)

theorem gainsFileOf_rows_nonblank (secs : List (String × List String)) :
    ∀ f ∈ gainsFileOf secs, ∀ row ∈ f.rows, isBlank row = false := by
  intro f hf
  unfold gainsFileOf at hf
  split at hf
  · rcases List.mem_singleton.mp hf with rfl
    exact gainsCsv_nonblank _
  · cases hf

/-- C8: a blank line leaves the splitter state unchanged (the open
section stays open), every section buffer of a run contains only
non-blank lines, and every row of every output file of a successful run
is non-blank. -/
theorem claim_C8_blank_lines :
    (∀ st l, isBlank l = true → stepLine st l = st) ∧
    (∀ lines k buf, (k, buf) ∈ (runSplitter lines).sections → ∀ l ∈ buf, isBlank l = false) ∧
    (∀ lines res, splitDump (some lines) true = .ok res →
      ∀ f ∈ res.files, ∀ row ∈ f.rows, isBlank row = false) := by
  refine ⟨stepLine_blank, fun lines => runSplitter_buffersNonblank lines, ?_⟩
  intro lines res hres f hf row hrow
  have hres2 : Except.ok (ε := RunError) (⟨renderOutputs (runSplitter lines).sections
      ++ gainsFileOf (runSplitter lines).sections⟩ : RunResult) = Except.ok res := by
    rw [← hres]
    rfl
  injection hres2 with hre
  subst hre
  rcases List.mem_append.mp hf with hf | hf
  · obtain ⟨⟨k, buf⟩, hmem, hout⟩ := List.mem_filterMap.mp hf
    split at hout
    · cases hout
    · have heq : renderFile k buf = f := Option.some_inj.mp hout
      rw [← heq] at hrow
      exact renderFile_rows_nonblank
        (fun l hl => runSplitter_buffersNonblank lines k buf hmem l hl) row hrow
  · exact gainsFileOf_rows_nonblank _ f hf row hrow


/-- Witness for C8: a blank line amid a concrete sales dump. -/
theorem claim_C8_witness :
    (stepLine ⟨some "robinhood_sales", [("robinhood_sales", ["x,y"])]⟩ " "
      = ⟨some "robinhood_sales", [("robinhood_sales", ["x,y"])]⟩) ∧
    isBlank "AAPL,2023-01-01,100.00,2023-06-01,150.00" = false ∧
    isBlank (cleanRow "ASSET NAME,RECEIVED DATE,COST BASIS,DATE SOLD,PROCEEDS") = false :=
  ⟨claim_C8_blank_lines.1 _ " " (by decide),
   claim_C8_blank_lines.2.1
     ["ASSET NAME,RECEIVED DATE,COST BASIS,DATE SOLD,PROCEEDS", " ",
      "AAPL,2023-01-01,100.00,2023-06-01,150.00"]
     "robinhood_sales"
     ["ASSET NAME,RECEIVED DATE,COST BASIS,DATE SOLD,PROCEEDS",
      "AAPL,2023-01-01,100.00,2023-06-01,150.00"]
     (by decide)
     "AAPL,2023-01-01,100.00,2023-06-01,150.00" (by decide),
   claim_C8_blank_lines.2.2
     ["ASSET NAME,RECEIVED DATE,COST BASIS,DATE SOLD,PROCEEDS", " ",
      "AAPL,2023-01-01,100.00,2023-06-01,150.00"]
     _ rfl
     (renderFile "robinhood_sales"
       ["ASSET NAME,RECEIVED DATE,COST BASIS,DATE SOLD,PROCEEDS",
        "AAPL,2023-01-01,100.00,2023-06-01,150.00"])
     (by decide)
     (cleanRow "ASSET NAME,RECEIVED DATE,COST BASIS,DATE SOLD,PROCEEDS") (by decide)⟩


theorem lookupSec_cons_ne {k0 K : String} (b0 : List String)
    (rest : List (String × List String)) (h : k0 ≠ K) :
    lookupSec ((k0, b0) :: rest) K = lookupSec rest K := by
  simp only [lookupSec]
  rw [if_neg (by simpa using h)]

theorem lookupSec_cons_eq (K : String) (b0 : List String)
    (rest : List (String × List String)) :
    lookupSec ((K, b0) :: rest) K = some b0 := by
  simp [lookupSec]

theorem lookupSec_append (s1 s2 : List (String × List String)) (K : String) :
    lookupSec (s1 ++ s2) K
      = match lookupSec s1 K with
        | some b => some b
        | none => lookupSec s2 K := by
  induction s1 with
  | nil => rfl
  | cons kb rest ih =>
    obtain ⟨k, b⟩ := kb
    by_cases hk : k = K
    · subst hk
      rw [List.cons_append, lookupSec_cons_eq, lookupSec_cons_eq]
    · rw [List.cons_append, lookupSec_cons_ne _ _ hk, lookupSec_cons_ne _ _ hk, ih]

theorem hasSection_eq_isSome (st : SplitState) (K : String) :
    hasSection st K = (lookupSec st.sections K).isSome := by
  unfold hasSection
  induction st.sections with
  | nil => rfl
  | cons kb rest ih =>
    obtain ⟨k, b⟩ := kb
    by_cases hk : k = K
    · subst hk
      rw [lookupSec_cons_eq]
      simp
    · rw [lookupSec_cons_ne _ _ hk, List.any_cons, ← ih]
      simp [hk]

theorem lookupSec_appendTo_ne (st : SplitState) {k K : String} (l : String)
    (h : k ≠ K) : lookupSec (appendTo st k l).sections K = lookupSec st.sections K := by
  unfold appendTo
  induction st.sections with
  | nil => rfl
  | cons kb rest ih =>
    obtain ⟨k0, b0⟩ := kb
    simp only [List.map_cons]
    by_cases hk0 : k0 = k
    · rw [if_pos (show (k0, b0).1 = k from hk0)]
      rw [lookupSec_cons_ne _ _ (show k0 ≠ K from hk0 ▸ h), lookupSec_cons_ne _ _ (hk0 ▸ h)]
      exact ih
    · rw [if_neg (show ¬ (k0, b0).1 = k from hk0)]
      by_cases hK : k0 = K
      · subst hK
        rw [lookupSec_cons_eq, lookupSec_cons_eq]
      · rw [lookupSec_cons_ne _ _ hK, lookupSec_cons_ne _ _ hK]
        exact ih

theorem lookupSec_appendTo_eq (st : SplitState) (K l : String) :
    lookupSec (appendTo st K l).sections K
      = (lookupSec st.sections K).map (fun b => b ++ [l]) := by
  unfold appendTo
  induction st.sections with
  | nil => rfl
  | cons kb rest ih =>
    obtain ⟨k0, b0⟩ := kb
    simp only [List.map_cons]
    by_cases hk0 : k0 = K
    · rw [if_pos (show (k0, b0).1 = K from hk0)]
      subst hk0
      rw [lookupSec_cons_eq, lookupSec_cons_eq]
      rfl
    · rw [if_neg (show ¬ (k0, b0).1 = K from hk0)]
      rw [lookupSec_cons_ne _ _ hk0, lookupSec_cons_ne _ _ hk0]
      exact ih


theorem stepLine_noK {K : String} (st : SplitState) {l : String}
    (hl : findHeader l ≠ some K) (hc : st.current ≠ some K) :
    lookupSec (stepLine st l).sections K = lookupSec st.sections K ∧
      (stepLine st l).current ≠ some K := by
  cases hf : findHeader l with
  | some k' =>
    have hk' : k' ≠ K := fun he => hl (he ▸ hf)
    simp only [stepLine, hf, openSection]
    by_cases hs : hasSection st k'
    · rw [if_pos hs]
      exact ⟨rfl, by simpa using hk'⟩
    · rw [if_neg hs]
      refine ⟨?_, by simpa using hk'⟩
      rw [lookupSec_append]
      cases lookupSec st.sections K with
      | some b => rfl
      | none => simp [lookupSec, hk']
  | none =>
    simp only [stepLine, hf]
    split
    · exact ⟨rfl, hc⟩
    · cases hcur : st.current with
      | none => exact ⟨rfl, by simp [hcur]⟩
      | some k' =>
        have hk' : k' ≠ K := fun he => hc (he ▸ hcur)
        exact ⟨lookupSec_appendTo_ne st l hk', by simpa [appendTo, hcur] using hk'⟩

theorem foldl_noK {K : String} (lines : List String) (st : SplitState)
    (hl : ∀ l ∈ lines, findHeader l ≠ some K) (hc : st.current ≠ some K) :
    lookupSec (List.foldl stepLine st lines).sections K = lookupSec st.sections K ∧
      (List.foldl stepLine st lines).current ≠ some K := by
  induction lines generalizing st with
  | nil => exact ⟨rfl, hc⟩
  | cons l ls ih =>
    have h1 := stepLine_noK st (hl l (by simp)) hc
    have h2 := ih (stepLine st l) (fun x hx => hl x (by simp [hx])) h1.2
    exact ⟨h2.1.trans h1.1, h2.2⟩

theorem foldl_inK {K : String} (lines : List String) (st : SplitState)
    (hc : st.current = some K) (hl : ∀ l ∈ lines, findHeader l = none) :
    (List.foldl stepLine st lines).current = some K ∧
      lookupSec (List.foldl stepLine st lines).sections K
        = (lookupSec st.sections K).map
            (fun b => b ++ lines.filter (fun l => !(isBlank l))) := by
  induction lines generalizing st with
  | nil =>
    refine ⟨hc, ?_⟩
    simp
  | cons l ls ih =>
    have hf := hl l (by simp)
    by_cases hb : isBlank l = true
    · have hstep : stepLine st l = st := stepLine_blank st l hb
      rw [List.foldl_cons, hstep]
      have h2 := ih st hc (fun x hx => hl x (by simp [hx]))
      refine ⟨h2.1, h2.2.trans ?_⟩
      rw [List.filter_cons]
      simp [hb]
    · have hbf : isBlank l = false := Bool.not_eq_true _ ▸ hb
      have hstep : stepLine st l = appendTo st K l := by
        simp [stepLine, hf, hbf, hc]
      rw [List.foldl_cons, hstep]
      have h2 := ih (appendTo st K l) (by simp [appendTo, hc])
        (fun x hx => hl x (by simp [hx]))
      refine ⟨h2.1, h2.2.trans ?_⟩
      rw [lookupSec_appendTo_eq, List.filter_cons]
      simp only [hbf]
      cases lookupSec st.sections K <;> simp

theorem foldl_blanks (lines : List String) (st : SplitState)
    (h : ∀ l ∈ lines, isBlank l = true) :
    List.foldl stepLine st lines = st := by
  induction lines with
  | nil => rfl
  | cons l ls ih =>
    rw [List.foldl_cons, stepLine_blank st l (h l (by simp))]
    exact ih (fun x hx => h x (by simp [hx]))

theorem afterBlock {K : String} (lines : List String) (st : SplitState)
    (hl : ∀ l ∈ lines, findHeader l ≠ some K)
    (hgap : ∀ l ∈ lines.takeWhile (fun l => (findHeader l).isNone), isBlank l = true) :
    lookupSec (List.foldl stepLine st lines).sections K = lookupSec st.sections K := by
  have hsplit := List.takeWhile_append_dropWhile
    (p := fun l => (findHeader l).isNone) (l := lines)
  rw [← hsplit, List.foldl_append,
    foldl_blanks _ st hgap]
  cases hd : lines.dropWhile (fun l => (findHeader l).isNone) with
  | nil => rfl
  | cons h' rest =>
    have hmem : h' ∈ lines := by
      have : h' ∈ lines.dropWhile (fun l => (findHeader l).isNone) := by simp [hd]
      exact (List.dropWhile_sublist _).mem this
    have hph : ((findHeader h').isNone) = false := by
      have := List.head_dropWhile_not (p := fun l => (findHeader l).isNone) (l := lines)
        (by simp [hd])
      simpa [hd] using this
    obtain ⟨k', hk'⟩ : ∃ k', findHeader h' = some k' := by
      cases hfh : findHeader h' with
      | none => rw [hfh] at hph; cases hph
      | some k' => exact ⟨k', rfl⟩
    have hkK : k' ≠ K := fun he => hl h' hmem (he ▸ hk')
    rw [List.foldl_cons]
    have hstep : lookupSec (stepLine st h').sections K = lookupSec st.sections K ∧
        (stepLine st h').current ≠ some K := by
      simp only [stepLine, hk', openSection]
      by_cases hs : hasSection st k'
      · rw [if_pos hs]
        exact ⟨rfl, by simpa using hkK⟩
      · rw [if_neg hs]
        refine ⟨?_, by simpa using hkK⟩
        rw [lookupSec_append]
        cases lookupSec st.sections K with
        | some b => rfl
        | none => simp [lookupSec, hkK]
    have hrest : ∀ x ∈ rest, findHeader x ≠ some K := by
      intro x hx
      have : x ∈ lines.dropWhile (fun l => (findHeader l).isNone) := by simp [hd, hx]
      exact hl x ((List.dropWhile_sublist _).mem this)
    have h4 := foldl_noK rest (stepLine st h') hrest hstep.2
    exact h4.1.trans hstep.1


theorem salesRun (pre1 : List String) (hdr1 : String) (body1 rest1 pre2 : List String)
    (hdr2 : String) (body2 rest2 : List String)
    (h1 : findHeader hdr1 = some "robinhood_sales")
    (h2 : findHeader hdr2 = some "robinhood_sales")
    (hbody : ∀ l ∈ body1 ++ body2, findHeader l = none)
    (hno : ∀ l ∈ pre1 ++ rest1 ++ pre2 ++ rest2, findHeader l ≠ some "robinhood_sales")
    (hgap1 : ∀ l ∈ (rest1 ++ pre2).takeWhile (fun l => (findHeader l).isNone), isBlank l = true)
    (hgap2 : ∀ l ∈ rest2.takeWhile (fun l => (findHeader l).isNone), isBlank l = true) :
    lookupSec (runSplitter ((pre1 ++ hdr1 :: body1 ++ rest1)
        ++ (pre2 ++ hdr2 :: body2 ++ rest2))).sections "robinhood_sales"
      = some (hdr1 :: (body1 ++ body2).filter (fun l => !(isBlank l))) := by
  have hnoA : ∀ l ∈ rest1 ++ pre2, findHeader l ≠ some "robinhood_sales" := by
    intro l hl
    rcases List.mem_append.mp hl with hl | hl <;> exact hno l (by simp [hl])
  have hD : (pre1 ++ hdr1 :: body1 ++ rest1) ++ (pre2 ++ hdr2 :: body2 ++ rest2)
      = ((((((pre1 ++ [hdr1]) ++ body1) ++ (rest1 ++ pre2)) ++ [hdr2]) ++ body2) ++ rest2) := by
    simp
  rw [runSplitter, hD]
  generalize hA : rest1 ++ pre2 = A at hnoA hgap1 ⊢
  simp only [List.foldl_append]
  -- phase 1: pre1
  have hp1 := foldl_noK (K := "robinhood_sales") pre1 initState
    (fun l hl => hno l (by simp [hl])) (by simp [initState])
  set st1 := List.foldl stepLine initState pre1 with hst1
  have hlook1 : lookupSec st1.sections "robinhood_sales" = none := by
    rw [hp1.1]
    rfl
  -- phase 2: hdr1
  have hstep1 : List.foldl stepLine st1 [hdr1]
      = ⟨some "robinhood_sales", st1.sections ++ [("robinhood_sales", [hdr1])]⟩ := by
    rw [List.foldl_cons, List.foldl_nil]
    simp only [stepLine, h1, openSection]
    rw [if_neg (by rw [hasSection_eq_isSome, hlook1]; simp)]
    rfl
  rw [hstep1]
  -- phase 3: body1
  have hb1 : ∀ l ∈ body1, findHeader l = none := fun l hl => hbody l (by simp [hl])
  have hp3 := foldl_inK (K := "robinhood_sales") body1
    ⟨some "robinhood_sales", st1.sections ++ [("robinhood_sales", [hdr1])]⟩ rfl hb1
  set st3 := List.foldl stepLine
    ⟨some "robinhood_sales", st1.sections ++ [("robinhood_sales", [hdr1])]⟩ body1 with hst3
  have hlook3 : lookupSec st3.sections "robinhood_sales"
      = some ([hdr1] ++ body1.filter (fun l => !(isBlank l))) := by
    rw [hp3.2, lookupSec_append, hlook1, lookupSec_cons_eq]
    rfl
  -- phase 4: the gap between the sales block and the next header
  have hp4 := afterBlock (K := "robinhood_sales") A st3 hnoA hgap1
  set st4 := List.foldl stepLine st3 A with hst4
  have hlook4 : lookupSec st4.sections "robinhood_sales"
      = some ([hdr1] ++ body1.filter (fun l => !(isBlank l))) := hp4.trans hlook3
  -- phase 5: hdr2 reopens the sales section
  have hstep2 : List.foldl stepLine st4 [hdr2]
      = { st4 with current := some "robinhood_sales" } := by
    rw [List.foldl_cons, List.foldl_nil]
    simp only [stepLine, h2, openSection]
    rw [if_pos (by rw [hasSection_eq_isSome, hlook4]; rfl)]
  rw [hstep2]
  -- phase 6: body2
  have hb2 : ∀ l ∈ body2, findHeader l = none := fun l hl => hbody l (by simp [hl])
  have hp6 := foldl_inK (K := "robinhood_sales") body2
    { st4 with current := some "robinhood_sales" } rfl hb2
  set st6 := List.foldl stepLine { st4 with current := some "robinhood_sales" } body2 with hst6
  have hlook6 : lookupSec st6.sections "robinhood_sales"
      = some (([hdr1] ++ body1.filter (fun l => !(isBlank l)))
          ++ body2.filter (fun l => !(isBlank l))) := by
    rw [hp6.2]
    have he : lookupSec ({ st4 with current := some "robinhood_sales" } : SplitState).sections
        "robinhood_sales" = some ([hdr1] ++ body1.filter (fun l => !(isBlank l))) := hlook4
    rw [he]
    rfl
  -- phase 7: rest2
  have hp7 := afterBlock (K := "robinhood_sales") rest2 st6
    (fun l hl => hno l (by simp [hl])) hgap2
  rw [hp7, hlook6]
  congr 1
  rw [List.filter_append]
  rfl


theorem strAppend_cancel {a b c : String} (h : a ++ c = b ++ c) : a = b := by
  have h1 : a.data ++ c.data = b.data ++ c.data := by
    rw [← strData_append, ← strData_append, h]
  have h2 := List.append_cancel_right h1
  cases a
  cases b
  exact congrArg String.mk h2

theorem isJsonKind_cases {k : String} (h : isJsonKind k = true) :
    k = "logic_app_json" ∨ k = "scriptable_js" := by
  simp only [isJsonKind, Bool.or_eq_true, beq_iff_eq] at h
  exact h

theorem renderFile_name_ne_sales {k : String} (b : List String)
    (h : k ≠ "robinhood_sales") :
    ((renderFile k b).name == "robinhood_sales.csv") = false := by
  unfold renderFile
  by_cases hj : isJsonKind k
  · rcases isJsonKind_cases hj with rfl | rfl
    · rw [if_pos (by decide)]
      split <;>
        · show (("logic_app_json" ++ ".json" : String) == "robinhood_sales.csv") = false
          decide
    · rw [if_pos (by decide)]
      split <;>
        · show (("scriptable_js" ++ ".json" : String) == "robinhood_sales.csv") = false
          decide
  · rw [if_neg hj]
    show ((k ++ ".csv") == "robinhood_sales.csv") = false
    by_contra hbe
    have hbe2 : ((k ++ ".csv") == "robinhood_sales.csv") = true := Bool.not_eq_false _ ▸ hbe
    have he : k ++ ".csv" = "robinhood_sales.csv" := eq_of_beq hbe2
    have he2 : k ++ ".csv" = "robinhood_sales" ++ ".csv" := by
      rw [he]
      decide
    exact h (strAppend_cancel he2)

theorem lookupSec_split {s : List (String × List String)} {K : String} {b : List String}
    (h : lookupSec s K = some b) :
    ∃ s1 s2, s = s1 ++ (K, b) :: s2 ∧ ∀ kb ∈ s1, kb.1 ≠ K := by
  induction s with
  | nil => cases h
  | cons kb rest ih =>
    obtain ⟨k0, b0⟩ := kb
    by_cases hk : k0 = K
    · subst hk
      rw [lookupSec_cons_eq] at h
      obtain rfl := Option.some_inj.mp h
      exact ⟨[], rest, rfl, by simp⟩
    · rw [lookupSec_cons_ne _ _ hk] at h
      obtain ⟨s1, s2, heq, hs1⟩ := ih h
      refine ⟨(k0, b0) :: s1, s2, by simp [heq], ?_⟩
      intro kb hkb
      rcases List.mem_cons.mp hkb with rfl | hkb
      · exact hk
      · exact hs1 _ hkb

theorem renderOutputs_append (a b : List (String × List String)) :
    renderOutputs (a ++ b) = renderOutputs a ++ renderOutputs b := by
  simp [renderOutputs, List.filterMap_append]

theorem renderOutputs_cons_ne_nil {k : String} {buf : List String}
    (s : List (String × List String)) (h : buf ≠ []) :
    renderOutputs ((k, buf) :: s) = renderFile k buf :: renderOutputs s := by
  simp [renderOutputs, List.filterMap_cons, isEmpty_false_of_ne_nil h, h]

theorem renderOutputs_no_sales {s : List (String × List String)}
    (h : ∀ kb ∈ s, kb.1 ≠ "robinhood_sales") :
    (renderOutputs s).filter (fun f => f.name == "robinhood_sales.csv") = [] := by
  rw [List.filter_eq_nil_iff]
  intro f hf
  obtain ⟨⟨k, b⟩, hmem, hsome⟩ := List.mem_filterMap.mp hf
  split at hsome
  · cases hsome
  · obtain rfl := Option.some_inj.mp hsome
    simp [renderFile_name_ne_sales b (h _ hmem)]

theorem gainsFileOf_filter_sales (secs : List (String × List String)) :
    (gainsFileOf secs).filter (fun f => f.name == "robinhood_sales.csv") = [] := by
  rw [List.filter_eq_nil_iff]
  intro f hf
  unfold gainsFileOf at hf
  split at hf
  · rcases List.mem_singleton.mp hf with rfl
    show ¬(("robinhood_gains_summary.csv" : String) == "robinhood_sales.csv") = true
    decide
  · cases hf

theorem files_filter_sales {secs : List (String × List String)} {salesBuf : List String}
    (hnd : (secs.map Prod.fst).Nodup)
    (hlook : lookupSec secs "robinhood_sales" = some salesBuf)
    (hne : salesBuf ≠ []) :
    (renderOutputs secs ++ gainsFileOf secs).filter
        (fun f => f.name == "robinhood_sales.csv")
      = [⟨"robinhood_sales.csv", salesBuf.map cleanRow⟩] := by
  obtain ⟨s1, s2, rfl, hs1⟩ := lookupSec_split hlook
  have hs2 : ∀ kb ∈ s2, kb.1 ≠ "robinhood_sales" := by
    have hmap : ((s1 ++ ("robinhood_sales", salesBuf) :: s2).map Prod.fst)
        = s1.map Prod.fst ++ "robinhood_sales" :: s2.map Prod.fst := by simp
    rw [hmap] at hnd
    have hR := (List.nodup_append.mp hnd).2.1
    have hnotm := (List.nodup_cons.mp hR).1
    intro kb hkb he
    exact hnotm (List.mem_map.mpr ⟨kb, hkb, he⟩)
  rw [List.filter_append, gainsFileOf_filter_sales, List.append_nil,
    renderOutputs_append, renderOutputs_cons_ne_nil _ hne,
    List.filter_append, renderOutputs_no_sales hs1, List.nil_append,
    List.filter_cons]
  have htest : ((renderFile "robinhood_sales" salesBuf).name == "robinhood_sales.csv") = true := by
    unfold renderFile
    rw [if_neg (by decide)]
    show ((("robinhood_sales" : String) ++ ".csv") == "robinhood_sales.csv") = true
    decide
  rw [if_pos (by simpa using htest), renderOutputs_no_sales hs2]
  have hfile : renderFile "robinhood_sales" salesBuf
      = ⟨"robinhood_sales.csv", salesBuf.map cleanRow⟩ := by
    unfold renderFile
    rw [if_neg (by decide)]
    rfl
  rw [hfile]


theorem runSplitter_kinds_nodup (lines : List String) :
    ((runSplitter lines).sections.map Prod.fst).Nodup := by
  unfold runSplitter
  have h0 : ((initState.sections.map Prod.fst)).Nodup := by simp [initState]
  generalize initState = st at h0 ⊢
  induction lines generalizing st with
  | nil => exact h0
  | cons l ls ih => exact ih _ (stepLine_kinds_nodup st l h0)

/-- C2: section kinds are never duplicated in the accumulated sections
(sections of the same kind share one output), and for any two dump texts
that each contain a sales header block — surrounded by arbitrary other
content free of sales headers, with only blank lines between a block's
end and the next recognized header — running the splitter on their
concatenation accumulates one sales section holding the first block's
header followed by both blocks' non-blank rows in original input order,
and the run writes exactly one file named robinhood_sales.csv, holding
exactly those rows. -/
theorem claim_C2_sales_accumulate :
    (∀ lines, ((runSplitter lines).sections.map Prod.fst).Nodup) ∧
    (∀ pre1 hdr1 body1 rest1 pre2 hdr2 body2 rest2,
      findHeader hdr1 = some "robinhood_sales" →
      findHeader hdr2 = some "robinhood_sales" →
      (∀ l ∈ body1 ++ body2, findHeader l = none) →
      (∀ l ∈ pre1 ++ rest1 ++ pre2 ++ rest2, findHeader l ≠ some "robinhood_sales") →
      (∀ l ∈ (rest1 ++ pre2).takeWhile (fun l => (findHeader l).isNone), isBlank l = true) →
      (∀ l ∈ rest2.takeWhile (fun l => (findHeader l).isNone), isBlank l = true) →
      lookupSec (runSplitter ((pre1 ++ hdr1 :: body1 ++ rest1)
          ++ (pre2 ++ hdr2 :: body2 ++ rest2))).sections "robinhood_sales"
        = some (hdr1 :: (body1 ++ body2).filter (fun l => !(isBlank l))) ∧
      ∃ res, splitDump (some ((pre1 ++ hdr1 :: body1 ++ rest1)
          ++ (pre2 ++ hdr2 :: body2 ++ rest2))) true = .ok res ∧
        res.files.filter (fun f => f.name == "robinhood_sales.csv")
          = [⟨"robinhood_sales.csv",
              (hdr1 :: (body1 ++ body2).filter (fun l => !(isBlank l))).map cleanRow⟩]) := by
  refine ⟨runSplitter_kinds_nodup, ?_⟩
  intro pre1 hdr1 body1 rest1 pre2 hdr2 body2 rest2 h1 h2 hbody hno hgap1 hgap2
  have hlook := salesRun pre1 hdr1 body1 rest1 pre2 hdr2 body2 rest2
    h1 h2 hbody hno hgap1 hgap2
  refine ⟨hlook, ⟨_, rfl, ?_⟩⟩
  exact files_filter_sales (runSplitter_kinds_nodup _) hlook (by simp)

/-- Witness for C2: two concrete dumps that contain their sales blocks
amid a preamble, a following price section, and trailing content. -/
theorem claim_C2_witness :
    lookupSec (runSplitter ((["preamble junk"]
          ++ "ASSET NAME,RECEIVED DATE,COST BASIS,DATE SOLD,PROCEEDS"
            :: ["AAPL,2023-01-01,100.00,2023-06-01,150.00"]
          ++ ["Start,End,Open,High,Low,Close,Volume,Market Cap", "1,2,3,4,5,6,7,8"])
        ++ (["more junk"]
          ++ "Asset Name,Received Date,Cost Basis,Date Sold,Proceeds"
            :: ["MSFT,2022-01-01,10.00,2023-06-01,30.00", " "]
          ++ ["\t"]))).sections "robinhood_sales"
      = some ("ASSET NAME,RECEIVED DATE,COST BASIS,DATE SOLD,PROCEEDS"
          :: (["AAPL,2023-01-01,100.00,2023-06-01,150.00"]
            ++ ["MSFT,2022-01-01,10.00,2023-06-01,30.00", " "]).filter
              (fun l => !(isBlank l))) ∧
    ∃ res, splitDump (some ((["preamble junk"]
          ++ "ASSET NAME,RECEIVED DATE,COST BASIS,DATE SOLD,PROCEEDS"
            :: ["AAPL,2023-01-01,100.00,2023-06-01,150.00"]
          ++ ["Start,End,Open,High,Low,Close,Volume,Market Cap", "1,2,3,4,5,6,7,8"])
        ++ (["more junk"]
          ++ "Asset Name,Received Date,Cost Basis,Date Sold,Proceeds"
            :: ["MSFT,2022-01-01,10.00,2023-06-01,30.00", " "]
          ++ ["\t"]))) true = .ok res ∧
      res.files.filter (fun f => f.name == "robinhood_sales.csv")
        = [⟨"robinhood_sales.csv",
            ("ASSET NAME,RECEIVED DATE,COST BASIS,DATE SOLD,PROCEEDS"
              :: (["AAPL,2023-01-01,100.00,2023-06-01,150.00"]
                ++ ["MSFT,2022-01-01,10.00,2023-06-01,30.00", " "]).filter
                  (fun l => !(isBlank l))).map cleanRow⟩] :=
  claim_C2_sales_accumulate.2 ["preamble junk"]
    "ASSET NAME,RECEIVED DATE,COST BASIS,DATE SOLD,PROCEEDS"
    ["AAPL,2023-01-01,100.00,2023-06-01,150.00"]
    ["Start,End,Open,High,Low,Close,Volume,Market Cap", "1,2,3,4,5,6,7,8"]
    ["more junk"]
    "Asset Name,Received Date,Cost Basis,Date Sold,Proceeds"
    ["MSFT,2022-01-01,10.00,2023-06-01,30.00", " "]
    ["\t"]
    (by decide) (by decide) (by decide) (by decide) (by decide) (by decide)

end E2B
